import Mathlib

/-!
# Horizontal pod autoscaler (autoscaling/v2beta2) structure conversions

A shallow embedding of `kubernetes/structure_horizontal_pod_autoscaler_v2.go`:
the `expand*` functions (generic configuration tree to typed specification), the
`flatten*` functions (typed specification to generic configuration tree) and the
patch generator.

Conventions of the embedding.

* A Go value of type `interface{}` is a `Val`; the constructor records the dynamic
  type, so that a type assertion can be modelled exactly.
* A Go slice is a `Slice`: either `nil` or a backing list.
* A Go `map[string]interface{}` is an association list read by first match and
  written by `GoMap.set`, which overwrites an existing key.
* A function that can panic (failed unchecked type assertion, `MustParse`, nil
  pointer dereference) returns an `Option`: `none` is the panic.
* A Go result pair `(value, error)` is a Lean pair whose second component is an
  `Option GoError` (`none` is the `nil` error).
* `int32(v)` of a Go `int` wraps around modulo `2^32`.
-/

set_option autoImplicit false

namespace HPA

/-! ## Dynamic values -/

/-- A Go slice: the nil slice, or a slice over a list of elements. -/
inductive Slice (α : Type) where
  | nil : Slice α
  | mk (elems : List α) : Slice α

namespace Slice

variable {α : Type}

/-- The elements of a slice; the nil slice has none. -/
def toList : Slice α → List α
  | nil => []
  | mk xs => xs

/-- Go `append(s, a)`: the result is never the nil slice. -/
def append (s : Slice α) (a : α) : Slice α := mk (s.toList ++ [a])

end Slice

/-- A Go `interface{}` value, tagged with its dynamic type. -/
inductive Val where
  /-- the nil interface value -/
  | nil : Val
  /-- a `bool` -/
  | bool (b : Bool) : Val
  /-- an `int` -/
  | int (n : Int) : Val
  /-- an `int32` -/
  | int32 (n : Int) : Val
  /-- a `string` -/
  | str (s : String) : Val
  /-- an `autoscalingv2beta2.MetricTargetType` (a named string type) -/
  | metricTargetType (s : String) : Val
  /-- an `autoscalingv2beta2.MetricSourceType` (a named string type) -/
  | metricSourceType (s : String) : Val
  /-- a `v1.ResourceName` (a named string type) -/
  | resourceName (s : String) : Val
  /-- a `[]interface{}` -/
  | slice (xs : Slice Val) : Val
  /-- a `map[string]interface{}` -/
  | map (kvs : List (String × Val)) : Val

/-- A Go `map[string]interface{}` as an association list. -/
abbrev GoMap := List (String × Val)

namespace GoMap

/-- The two-result map read `v, ok := m[k]`: `none` when the key is absent. -/
def get : GoMap → String → Option Val
  | [], _ => none
  | (k, v) :: rest, key => if k = key then some v else get rest key

/-- The one-result map read `m[k]`: the nil interface when the key is absent. -/
def index (m : GoMap) (key : String) : Val := (get m key).getD Val.nil

/-- The map write `m[k] = v`: an existing entry for the key is overwritten. -/
def set : GoMap → String → Val → GoMap
  | [], key, v => [(key, v)]
  | (k, w) :: rest, key, v => if k = key then (k, v) :: rest else (k, w) :: set rest key v

end GoMap

/-- The type assertion `v.(int)`; `none` when the dynamic type is not `int`. -/
def asInt : Val → Option Int
  | Val.int n => some n
  | _ => none

/-- The type assertion `v.(string)`; `none` when the dynamic type is not `string`. -/
def asString : Val → Option String
  | Val.str s => some s
  | _ => none

/-- The type assertion `v.([]interface{})`. -/
def asSlice : Val → Option (Slice Val)
  | Val.slice xs => some xs
  | _ => none

/-- The type assertion `v.(map[string]interface{})`. -/
def asMap : Val → Option GoMap
  | Val.map kvs => some kvs
  | _ => none

/-- The test `v == nil` on an interface value. -/
def Val.isNil : Val → Bool
  | Val.nil => true
  | _ => false

/-- The conversion `int32(v)` of a Go `int`: wrap-around modulo `2^32` into the
signed 32-bit range. -/
def toInt32 (v : Int) : Int := (v + 2147483648) % 4294967296 - 2147483648

/-- The helper `ptrToInt32`: a pointer to the given number. -/
def ptrToInt32 (v : Int) : Option Int := some v

/-! ## Errors -/

/-- A Go `error` built by `fmt.Errorf` or by `errors.Wrap`. -/
inductive GoError where
  | errorf (msg : String) : GoError
  | wrap (cause : GoError) (msg : String) : GoError

/-- The text of an error (`err.Error()`): a wrapped error prints as
`msg: cause`. -/
def GoError.Error : GoError → String
  | GoError.errorf msg => msg
  | GoError.wrap cause msg => msg ++ ": " ++ cause.Error

/-! ## Typed specification objects

`Q` is the type of `resource.Quantity` and `S` the type of `metav1.LabelSelector`;
pointer fields are `Option`s (`none` is the nil pointer). -/

/-- The struct `autoscalingv2beta2.CrossVersionObjectReference`. -/
structure CrossVersionObjectReference where
  Kind : String := ""
  Name : String := ""
  APIVersion : String := ""

/-- The struct `autoscalingv2beta2.MetricTarget`. -/
structure MetricTarget (Q : Type) where
  Type_ : String := ""
  Value : Option Q := none
  AverageValue : Option Q := none
  AverageUtilization : Option Int := none

/-- The struct `autoscalingv2beta2.MetricIdentifier`. -/
structure MetricIdentifier (S : Type) where
  Name : String := ""
  Selector : Option S := none

/-- The struct `autoscalingv2beta2.ResourceMetricSource`. -/
structure ResourceMetricSource (Q : Type) where
  Name : String := ""
  Target : MetricTarget Q := {}

/-- The struct `autoscalingv2beta2.ExternalMetricSource`. -/
structure ExternalMetricSource (Q S : Type) where
  Metric : MetricIdentifier S := {}
  Target : MetricTarget Q := {}

/-- The struct `autoscalingv2beta2.PodsMetricSource`. -/
structure PodsMetricSource (Q S : Type) where
  Metric : MetricIdentifier S := {}
  Target : MetricTarget Q := {}

/-- The struct `autoscalingv2beta2.ObjectMetricSource`. -/
structure ObjectMetricSource (Q S : Type) where
  DescribedObject : CrossVersionObjectReference := {}
  Target : MetricTarget Q := {}
  Metric : MetricIdentifier S := {}

/-- The struct `autoscalingv2beta2.MetricSpec`. -/
structure MetricSpec (Q S : Type) where
  Type_ : String := ""
  Object : Option (ObjectMetricSource Q S) := none
  Pods : Option (PodsMetricSource Q S) := none
  Resource : Option (ResourceMetricSource Q) := none
  External : Option (ExternalMetricSource Q S) := none

/-- The struct `autoscalingv2beta2.HorizontalPodAutoscalerSpec`. -/
structure HorizontalPodAutoscalerSpec (Q S : Type) where
  ScaleTargetRef : CrossVersionObjectReference := {}
  MinReplicas : Option Int := none
  MaxReplicas : Int := 0
  Metrics : Slice (MetricSpec Q S) := Slice.nil

/-! ## Functions declared outside the file -/

/-- The functions this file calls and does not define: the quantity parser and
printer of `k8s.io/apimachinery/pkg/api/resource`, and the label selector
conversions of this package. They are parameters of the embedding. -/
structure Lib (Q S : Type) where
  /-- The function `resource.MustParse`: `none` when it panics on an unparsable
  string. -/
  MustParse : String → Option Q
  /-- The method `(*Quantity).String` on a non-nil receiver. -/
  QuantityString : Q → String
  /-- The method `(*Quantity).String` on the nil receiver: `none` when the method
  dereferences its receiver and panics. -/
  nilQuantityString : Option String
  /-- The function `expandLabelSelector`: `none` when it panics; the result is a
  pointer. -/
  expandLabelSelector : Slice Val → Option (Option S)
  /-- The function `flattenLabelSelector` on a non-nil selector: `none` when it
  panics. -/
  flattenLabelSelector : S → Option (Slice Val)

/-- The method call `p.String()` on a `*resource.Quantity` that may be nil. -/
def Lib.String {Q S : Type} (L : Lib Q S) : Option Q → Option String
  | some q => some (L.QuantityString q)
  | none => L.nilQuantityString

/-- The guard `v, ok := x.([]interface{}); ok && len(v) == 1`: when it holds, the
slice `v` together with its only element `v[0]`. -/
def lenOne (x : Val) : Option (Slice Val × Val) :=
  match asSlice x with
  | some v =>
    match v.toList with
    | [e] => some (v, e)
    | _ => none
  | none => none

section Expand

variable {Q S : Type} (L : Lib Q S)

/-! ## Expand: configuration tree to typed specification -/

/-- Go `expandV2CrossVersionObjectReference`. Panics when the first element is
neither nil nor a map, or when a present key does not hold a string. -/
def expandV2CrossVersionObjectReference (inp : Slice Val) :
    Option CrossVersionObjectReference :=
  match inp.toList with
  | [] => some {}
  | x :: _ =>
    if x.isNil then some {}
    else do
      let ref : CrossVersionObjectReference := {}
      let m ← asMap x
      let ref ←
        (match GoMap.get m "api_version" with
        | some v => (asString v).map fun s => { ref with APIVersion := s }
        | none => some ref)
      let ref ←
        (match GoMap.get m "kind" with
        | some v => (asString v).map fun s => { ref with Kind := s }
        | none => some ref)
      let ref ←
        (match GoMap.get m "name" with
        | some v => (asString v).map fun s => { ref with Name := s }
        | none => some ref)
      pure ref

/-- Go `expandV2MetricTarget`. Panics when `resource.MustParse` does. -/
def expandV2MetricTarget (m : GoMap) : Option (MetricTarget Q) := do
  let target : MetricTarget Q := {}
  let target :=
    match asString (GoMap.index m "type") with
    | some v => { target with Type_ := v }
    | none => target
  let target :=
    match asInt (GoMap.index m "average_utilization") with
    | some v =>
      if v > 0 then { target with AverageUtilization := ptrToInt32 (toInt32 v) }
      else target
    | none => target
  let target ←
    (match asString (GoMap.index m "average_value") with
    | some v =>
      if v ≠ "" then (L.MustParse v).map fun q => { target with AverageValue := some q }
      else some target
    | none => some target)
  let target ←
    (match asString (GoMap.index m "value") with
    | some v =>
      if v ≠ "" then (L.MustParse v).map fun q => { target with Value := some q }
      else some target
    | none => some target)
  pure target

/-- The statement `if v, ok := m["target"].([]interface{}); ok && len(v) == 1
{ source.Target = expandV2MetricTarget(v[0].(map[string]interface{})) }`, shared
by the four metric sources: the new value of `source.Target`. -/
def expandTargetField (m : GoMap) (old : MetricTarget Q) : Option (MetricTarget Q) :=
  match lenOne (GoMap.index m "target") with
  | some (_, e) => do
    let tm ← asMap e
    expandV2MetricTarget L tm
  | none => some old

/-- Go `expandV2ResourceMetricSource`. -/
def expandV2ResourceMetricSource (m : GoMap) : Option (ResourceMetricSource Q) := do
  let source : ResourceMetricSource Q := {}
  let source :=
    match asString (GoMap.index m "name") with
    | some v => { source with Name := v }
    | none => source
  let t ← expandTargetField L m source.Target
  pure { source with Target := t }

/-- Go `expandV2MetricIdentifier`. The name is read by an unchecked assertion. -/
def expandV2MetricIdentifier (m : GoMap) : Option (MetricIdentifier S) := do
  let identifier : MetricIdentifier S := {}
  let name ← asString (GoMap.index m "name")
  let identifier := { identifier with Name := name }
  match lenOne (GoMap.index m "selector") with
  | some (v, _) => do
    let sel ← L.expandLabelSelector v
    pure { identifier with Selector := sel }
  | none => pure identifier

/-- The statement `if v, ok := m["metric"].([]interface{}); ok && len(v) == 1
{ source.Metric = expandV2MetricIdentifier(v[0].(map[string]interface{})) }`,
shared by three metric sources: the new value of `source.Metric`. -/
def expandMetricField (m : GoMap) (old : MetricIdentifier S) : Option (MetricIdentifier S) :=
  match lenOne (GoMap.index m "metric") with
  | some (_, e) => do
    let im ← asMap e
    expandV2MetricIdentifier L im
  | none => some old

/-- Go `expandV2ExternalMetricSource`. -/
def expandV2ExternalMetricSource (m : GoMap) : Option (ExternalMetricSource Q S) := do
  let source : ExternalMetricSource Q S := {}
  let i ← expandMetricField L m source.Metric
  let source := { source with Metric := i }
  let t ← expandTargetField L m source.Target
  pure { source with Target := t }

/-- Go `expandV2PodsMetricSource`. -/
def expandV2PodsMetricSource (m : GoMap) : Option (PodsMetricSource Q S) := do
  let source : PodsMetricSource Q S := {}
  let i ← expandMetricField L m source.Metric
  let source := { source with Metric := i }
  let t ← expandTargetField L m source.Target
  pure { source with Target := t }

/-- Go `expandV2ObjectMetricSource`. -/
def expandV2ObjectMetricSource (m : GoMap) : Option (ObjectMetricSource Q S) := do
  let source : ObjectMetricSource Q S := {}
  let d ←
    (match lenOne (GoMap.index m "described_object") with
    | some (v, _) => expandV2CrossVersionObjectReference v
    | none => some source.DescribedObject)
  let source := { source with DescribedObject := d }
  let i ← expandMetricField L m source.Metric
  let source := { source with Metric := i }
  let t ← expandTargetField L m source.Target
  pure { source with Target := t }

/-- Go `expandV2MetricSpec`: the pair `(MetricSpec, error)`. -/
def expandV2MetricSpec (m : GoMap) : Option (MetricSpec Q S × Option GoError) :=
  match asString (GoMap.index m "type") with
  | none => some ({}, some (GoError.errorf "metric must have a type"))
  | some metricType => do
    let spec : MetricSpec Q S := {}
    let spec := { spec with Type_ := metricType }
    let spec ←
      (match lenOne (GoMap.index m "resource") with
      | some (_, e) => do
        let sm ← asMap e
        let r ← expandV2ResourceMetricSource L sm
        pure { spec with Resource := some r }
      | none => some spec)
    let spec ←
      (match lenOne (GoMap.index m "external") with
      | some (_, e) => do
        let sm ← asMap e
        let r ← expandV2ExternalMetricSource L sm
        pure { spec with External := some r }
      | none => some spec)
    let spec ←
      (match lenOne (GoMap.index m "pods") with
      | some (_, e) => do
        let sm ← asMap e
        let r ← expandV2PodsMetricSource L sm
        pure { spec with Pods := some r }
      | none => some spec)
    let spec ←
      (match lenOne (GoMap.index m "object") with
      | some (_, e) => do
        let sm ← asMap e
        let r ← expandV2ObjectMetricSource L sm
        pure { spec with Object := some r }
      | none => some spec)
    pure (spec, none)

/-- The loop `for _, m := range v` of `expandHorizontalPodAutoscalerV2Spec` over
the remaining metrics, followed by the final `return spec, nil`. -/
def expandMetricsFrom (spec : HorizontalPodAutoscalerSpec Q S) :
    List Val → Option (Option (HorizontalPodAutoscalerSpec Q S) × Option GoError)
  | [] => some (some spec, none)
  | m :: rest => do
    let mm ← asMap m
    let r ← expandV2MetricSpec L mm
    match r.2 with
    | some err => pure (none, some (GoError.wrap err "failed to expand metric spec"))
    | none => expandMetricsFrom { spec with Metrics := spec.Metrics.append r.1 } rest

/-- Go `expandHorizontalPodAutoscalerV2Spec`: the pair `(*Spec, error)`. -/
def expandHorizontalPodAutoscalerV2Spec (inp : Slice Val) :
    Option (Option (HorizontalPodAutoscalerSpec Q S) × Option GoError) :=
  match inp.toList with
  | [] =>
    some (none, some (GoError.errorf
      "failed to expand HorizontalPodAutoscaler.Spec: null or empty input"))
  | x :: _ =>
    if x.isNil then
      some (none, some (GoError.errorf
        "failed to expand HorizontalPodAutoscaler.Spec: null or empty input"))
    else do
      let spec : HorizontalPodAutoscalerSpec Q S := {}
      let m ← asMap x
      let spec ←
        (match GoMap.get m "max_replicas" with
        | some v => (asInt v).map fun n => { spec with MaxReplicas := toInt32 n }
        | none => some spec)
      let spec :=
        match asInt (GoMap.index m "min_replicas") with
        | some v =>
          if v > 0 then { spec with MinReplicas := ptrToInt32 (toInt32 v) } else spec
        | none => spec
      let spec ←
        (match GoMap.get m "scale_target_ref" with
        | some v => do
          let s ← asSlice v
          let r ← expandV2CrossVersionObjectReference s
          pure { spec with ScaleTargetRef := r }
        | none => some spec)
      match asSlice (GoMap.index m "metric") with
      | some v => expandMetricsFrom L { spec with Metrics := Slice.mk [] } v.toList
      | none => some (some spec, none)

end Expand

section Flatten

variable {Q S : Type} (L : Lib Q S)

/-! ## Flatten: typed specification to configuration tree -/

/-- Go `flattenV2CrossVersionObjectReference`. -/
def flattenV2CrossVersionObjectReference (ref : CrossVersionObjectReference) : Slice Val :=
  let m : GoMap := []
  let m := if ref.APIVersion ≠ "" then GoMap.set m "api_version" (Val.str ref.APIVersion) else m
  let m := if ref.Kind ≠ "" then GoMap.set m "kind" (Val.str ref.Kind) else m
  let m := if ref.Name ≠ "" then GoMap.set m "name" (Val.str ref.Name) else m
  Slice.mk [Val.map m]

/-- Go `flattenV2MetricTarget`. The entry written under `value` is the string of
`target.AverageValue`, as in the source. -/
def flattenV2MetricTarget (target : MetricTarget Q) : Option (Slice Val) := do
  let m : GoMap := [("type", Val.metricTargetType target.Type_)]
  let m ←
    (match target.AverageValue with
    | some _ => (L.String target.AverageValue).map fun s => GoMap.set m "average_value" (Val.str s)
    | none => some m)
  let m :=
    match target.AverageUtilization with
    | some u => GoMap.set m "average_utilization" (Val.int32 u)
    | none => m
  let m ←
    (match target.Value with
    | some _ => (L.String target.AverageValue).map fun s => GoMap.set m "value" (Val.str s)
    | none => some m)
  pure (Slice.mk [Val.map m])

/-- Go `flattenV2MetricIdentifier`. -/
def flattenV2MetricIdentifier (identifier : MetricIdentifier S) : Option (Slice Val) := do
  let m : GoMap := [("name", Val.str identifier.Name)]
  let m ←
    (match identifier.Selector with
    | some sel => (L.flattenLabelSelector sel).map fun v => GoMap.set m "selector" (Val.slice v)
    | none => some m)
  pure (Slice.mk [Val.map m])

/-- Go `flattenV2ExternalMetricSource`. -/
def flattenV2ExternalMetricSource (external : ExternalMetricSource Q S) :
    Option (Slice Val) := do
  let i ← flattenV2MetricIdentifier L external.Metric
  let t ← flattenV2MetricTarget L external.Target
  let m : GoMap := [("metric", Val.slice i), ("target", Val.slice t)]
  pure (Slice.mk [Val.map m])

/-- Go `flattenV2PodsMetricSource`. -/
def flattenV2PodsMetricSource (pods : PodsMetricSource Q S) : Option (Slice Val) := do
  let i ← flattenV2MetricIdentifier L pods.Metric
  let t ← flattenV2MetricTarget L pods.Target
  let m : GoMap := [("metric", Val.slice i), ("target", Val.slice t)]
  pure (Slice.mk [Val.map m])

/-- Go `flattenV2ObjectMetricSource`. -/
def flattenV2ObjectMetricSource (object : ObjectMetricSource Q S) : Option (Slice Val) := do
  let d := flattenV2CrossVersionObjectReference object.DescribedObject
  let i ← flattenV2MetricIdentifier L object.Metric
  let t ← flattenV2MetricTarget L object.Target
  let m : GoMap := [("described_object", Val.slice d), ("metric", Val.slice i),
    ("target", Val.slice t)]
  pure (Slice.mk [Val.map m])

/-- Go `flattenV2ResourceMetricSource`. -/
def flattenV2ResourceMetricSource (resource : ResourceMetricSource Q) :
    Option (Slice Val) := do
  let t ← flattenV2MetricTarget L resource.Target
  let m : GoMap := [("name", Val.resourceName resource.Name), ("target", Val.slice t)]
  pure (Slice.mk [Val.map m])

/-- Go `flattenV2MetricSpec`. The object source is written under the key `pods`,
as in the source. -/
def flattenV2MetricSpec (spec : MetricSpec Q S) : Option GoMap := do
  let m : GoMap := []
  let m := GoMap.set m "type" (Val.metricSourceType spec.Type_)
  let m ←
    (match spec.Resource with
    | some r => (flattenV2ResourceMetricSource L r).map fun v => GoMap.set m "resource" (Val.slice v)
    | none => some m)
  let m ←
    (match spec.External with
    | some e => (flattenV2ExternalMetricSource L e).map fun v => GoMap.set m "external" (Val.slice v)
    | none => some m)
  let m ←
    (match spec.Pods with
    | some p => (flattenV2PodsMetricSource L p).map fun v => GoMap.set m "pods" (Val.slice v)
    | none => some m)
  let m ←
    (match spec.Object with
    | some o => (flattenV2ObjectMetricSource L o).map fun v => GoMap.set m "pods" (Val.slice v)
    | none => some m)
  pure m

/-- The loop `for _, m := range spec.Metrics` of
`flattenHorizontalPodAutoscalerV2Spec` over the remaining metrics: the final value
of `metrics`. -/
def flattenMetricsFrom (metrics : Slice Val) : List (MetricSpec Q S) → Option (Slice Val)
  | [] => some metrics
  | m :: rest => do
    let fm ← flattenV2MetricSpec L m
    flattenMetricsFrom (metrics.append (Val.map fm)) rest

/-- Go `flattenHorizontalPodAutoscalerV2Spec`. -/
def flattenHorizontalPodAutoscalerV2Spec (spec : HorizontalPodAutoscalerSpec Q S) :
    Option (Slice Val) := do
  let m : GoMap := []
  let m := GoMap.set m "max_replicas" (Val.int32 spec.MaxReplicas)
  let m :=
    match spec.MinReplicas with
    | some n => GoMap.set m "min_replicas" (Val.int32 n)
    | none => m
  let m := GoMap.set m "scale_target_ref"
    (Val.slice (flattenV2CrossVersionObjectReference spec.ScaleTargetRef))
  let metrics ← flattenMetricsFrom L (Slice.mk []) spec.Metrics.toList
  let m := GoMap.set m "metric" (Val.slice metrics)
  pure (Slice.mk [Val.map m])

end Flatten

/-! ## Patch generation -/

/-- Modelled from the spec: the `ReplaceOperation` struct is declared outside the
file; a patch operation is "a single JSON-patch-style instruction (e.g., replace)
targeting one field path", and the file builds it from a `Path` and a `Value`. -/
structure ReplaceOperation where
  Path : String
  Value : Val

/-- Modelled from the spec: the `PatchOperation` interface is declared outside the
file; the only implementation the file constructs is a pointer to a
`ReplaceOperation`. -/
inductive PatchOperation where
  | Replace (op : ReplaceOperation) : PatchOperation

/-- The two methods of `schema.ResourceData` the file calls: `HasChange(key)` and
`Get(key)`. -/
structure ResourceData where
  HasChange : String → Bool
  Get : String → Val

/-- Go `patchHorizontalPodAutoscalerV2Spec`. Panics when a changed field does not
hold an `int`. -/
def patchHorizontalPodAutoscalerV2Spec (pfx : String) (pathPfx : String)
    (d : ResourceData) : Option (Slice PatchOperation) := do
  let ops : Slice PatchOperation := Slice.mk []
  let ops ←
    if d.HasChange (pfx ++ "max_replicas") then
      (asInt (d.Get (pfx ++ "max_replicas"))).map fun v =>
        ops.append (PatchOperation.Replace ⟨pathPfx ++ "/maxReplicas", Val.int v⟩)
    else some ops
  let ops ←
    if d.HasChange (pfx ++ "min_replicas") then
      (asInt (d.Get (pfx ++ "min_replicas"))).map fun v =>
        ops.append (PatchOperation.Replace ⟨pathPfx ++ "/minReplicas", Val.int v⟩)
    else some ops
  pure ops

/-! ## A sample instance of the outside functions -/

/-- A sample instance of `Lib`, for evaluating the embedding at concrete inputs.
A quantity is a non-empty string of decimal digits and prints as itself;
`String` on the nil receiver panics (the method reads the fields of its
receiver); a label selector is the slice it was expanded from. -/
def sampleLib : Lib String (Slice Val) where
  MustParse := fun s =>
    match s.data with
    | [] => none
    | cs => if cs.all Char.isDigit then some s else none
  QuantityString := fun q => q
  nilQuantityString := none
  expandLabelSelector := fun v => some (some v)
  flattenLabelSelector := fun sel => some sel

/-! ## Predicates and sample data used by the statements -/

/-- The path of a patch operation. -/
def PatchOperation.path : PatchOperation → String
  | PatchOperation.Replace op => op.Path

section
variable {Q S : Type} (L : Lib Q S)

/-- Every populated metric source of the spec has a flattening: none of the calls
`flattenV2ResourceMetricSource`, `flattenV2ExternalMetricSource`,
`flattenV2PodsMetricSource`, `flattenV2ObjectMetricSource` made by
`flattenV2MetricSpec` panics. -/
def sourcesFlatten (spec : MetricSpec Q S) : Prop :=
  (∀ r, spec.Resource = some r → (flattenV2ResourceMetricSource L r).isSome = true) ∧
  (∀ e, spec.External = some e → (flattenV2ExternalMetricSource L e).isSome = true) ∧
  (∀ p, spec.Pods = some p → (flattenV2PodsMetricSource L p).isSome = true) ∧
  (∀ o, spec.Object = some o → (flattenV2ObjectMetricSource L o).isSome = true)

end

/-- A sample object metric source. -/
def sampleObjectSource : ObjectMetricSource String (Slice Val) :=
  { DescribedObject := { Kind := "Service", Name := "web", APIVersion := "v1" },
    Metric := { Name := "requests" },
    Target := { Type_ := "AverageValue", AverageValue := some "10" } }

/-- A sample pods metric source. -/
def samplePodsSource : PodsMetricSource String (Slice Val) :=
  { Metric := { Name := "packets" },
    Target := { Type_ := "AverageValue", AverageValue := some "7" } }

/-- A metric spec in which only the object source is populated. -/
def sampleObjectOnly : MetricSpec String (Slice Val) :=
  { Type_ := "Object", Object := some sampleObjectSource }

/-- A metric spec in which the pods and the object sources are both populated. -/
def samplePodsAndObject : MetricSpec String (Slice Val) :=
  { Type_ := "Object", Pods := some samplePodsSource, Object := some sampleObjectSource }

/-- The metric map of `sampleObjectRecord`: an object metric with an
`average_value` target. -/
def sampleObjectMetric : GoMap :=
  [("type", Val.str "Object"),
   ("object", Val.slice (Slice.mk [Val.map
      [("described_object", Val.slice (Slice.mk [Val.map
          [("api_version", Val.str "v1"), ("kind", Val.str "Service"),
           ("name", Val.str "web")]])),
       ("metric", Val.slice (Slice.mk [Val.map [("name", Val.str "requests")]])),
       ("target", Val.slice (Slice.mk [Val.map
          [("type", Val.str "AverageValue"), ("average_value", Val.str "10")]]))]]))]

/-- A well-formed configuration record with one object metric. -/
def sampleObjectRecord : Val :=
  Val.map
    [("max_replicas", Val.int 5), ("min_replicas", Val.int 1),
     ("scale_target_ref", Val.slice (Slice.mk [Val.map
        [("api_version", Val.str "apps/v1"), ("kind", Val.str "Deployment"),
         ("name", Val.str "web")]])),
     ("metric", Val.slice (Slice.mk [Val.map sampleObjectMetric]))]

/-- A typed spec with one resource metric whose target has `Value` set and
`AverageValue` absent. -/
def valueOnlySpec {Q S : Type} (q : Q) : HorizontalPodAutoscalerSpec Q S :=
  { MaxReplicas := 3,
    Metrics := Slice.mk
      [{ Type_ := "Resource",
         Resource := some { Name := "cpu", Target := { Type_ := "Value", Value := some q } } }] }

/-- A resource state in which only `spec.0.max_replicas` changed, to `5`. -/
def sampleMaxChanged : ResourceData :=
  { HasChange := fun key => decide (key = "spec.0.max_replicas"),
    Get := fun _ => Val.int 5 }

/-! ## Well-typed inputs

The expand functions read some fields by unchecked type assertions and parse
quantities with `MustParse`. An input is well typed when every value read that
way has the asserted type and every quantity string parses, so that no expand
function panics on it. -/

section
variable {Q S : Type} (L : Lib Q S)

/-- The key is absent or holds a string (read as `v, ok := m[k]` followed by the
unchecked `v.(string)`). -/
def wtOptString (m : GoMap) (k : String) : Bool :=
  match GoMap.get m k with
  | some v => (asString v).isSome
  | none => true

/-- A well-typed argument of `expandV2CrossVersionObjectReference`: no first
element, or a nil one, or a map whose `api_version`, `kind` and `name`, when
present, are strings. -/
def wtObjectReference (inp : Slice Val) : Bool :=
  match inp.toList with
  | [] => true
  | x :: _ =>
    x.isNil ||
      match asMap x with
      | some m => wtOptString m "api_version" && wtOptString m "kind" && wtOptString m "name"
      | none => false

/-- The quantity under the key, when it is a non-empty string, parses. -/
def wtQuantity (m : GoMap) (k : String) : Bool :=
  match asString (GoMap.index m k) with
  | some v => decide (v = "") || (L.MustParse v).isSome
  | none => true

/-- A well-typed metric target map. -/
def wtTarget (m : GoMap) : Bool :=
  wtQuantity L m "average_value" && wtQuantity L m "value"

/-- A one-element list under the key holds a map that satisfies `body`. -/
def wtOne (k : String) (body : GoMap → Bool) (m : GoMap) : Bool :=
  match lenOne (GoMap.index m k) with
  | some (_, e) =>
    match asMap e with
    | some sm => body sm
    | none => false
  | none => true

/-- A well-typed metric identifier map: the name is a string, and a one-element
`selector` list is accepted by `expandLabelSelector`. -/
def wtIdentifier (m : GoMap) : Bool :=
  (asString (GoMap.index m "name")).isSome &&
    match lenOne (GoMap.index m "selector") with
    | some (v, _) => (L.expandLabelSelector v).isSome
    | none => true

/-- A one-element `described_object` list is a well-typed object reference. -/
def wtDescribedObject (m : GoMap) : Bool :=
  match lenOne (GoMap.index m "described_object") with
  | some (v, _) => wtObjectReference v
  | none => true

/-- A well-typed element of the `metric` list: a map whose one-element
`resource`, `external`, `pods` and `object` lists hold well-typed source maps. -/
def wtMetric (v : Val) : Bool :=
  match asMap v with
  | none => false
  | some m =>
    wtOne "resource" (wtOne "target" (wtTarget L)) m &&
    wtOne "external"
      (fun sm => wtOne "metric" (wtIdentifier L) sm && wtOne "target" (wtTarget L) sm) m &&
    wtOne "pods"
      (fun sm => wtOne "metric" (wtIdentifier L) sm && wtOne "target" (wtTarget L) sm) m &&
    wtOne "object"
      (fun sm => wtDescribedObject sm && wtOne "metric" (wtIdentifier L) sm &&
        wtOne "target" (wtTarget L) sm) m

/-- A well-typed configuration record: `max_replicas`, when present, is an `int`;
`scale_target_ref`, when present, is a list that is a well-typed object
reference; the elements of a `metric` list are well-typed metrics. -/
def wtRecord (m : GoMap) : Bool :=
  (match GoMap.get m "max_replicas" with
    | some v => (asInt v).isSome
    | none => true) &&
  (match GoMap.get m "scale_target_ref" with
    | some v =>
      match asSlice v with
      | some s => wtObjectReference s
      | none => false
    | none => true) &&
  (match asSlice (GoMap.index m "metric") with
    | some v => v.toList.all (wtMetric L)
    | none => true)

/-- A well-typed input list of `expandHorizontalPodAutoscalerV2Spec`: its first
element, if any, is nil or a well-typed configuration record. -/
def WellTyped (inp : Slice Val) : Bool :=
  match inp.toList with
  | [] => true
  | x :: _ =>
    x.isNil ||
      match asMap x with
      | some m => wtRecord L m
      | none => false

end

/-- The input list is absent: it has no element, or its first element is nil. -/
def inputAbsent (inp : Slice Val) : Prop :=
  inp.toList = [] ∨ ∃ rest, inp.toList = Val.nil :: rest

/-- The elements of the `metric` list of the first element of the input. -/
def metricList (inp : Slice Val) : List Val :=
  match inp.toList with
  | [] => []
  | x :: _ =>
    match asMap x with
    | some m =>
      match asSlice (GoMap.index m "metric") with
      | some v => v.toList
      | none => []
    | none => []

/-- The element of a `metric` list has no `type` entry that is a string. -/
def lacksStringType (v : Val) : Bool :=
  match asMap v with
  | some m => (asString (GoMap.index m "type")).isNone
  | none => true

/-- The error returned for an absent input. -/
def errNullOrEmpty : GoError :=
  GoError.errorf "failed to expand HorizontalPodAutoscaler.Spec: null or empty input"

/-- The error returned for a metric without a string `type`, as wrapped by
`expandHorizontalPodAutoscalerV2Spec`. -/
def errMalformedMetric : GoError :=
  GoError.wrap (GoError.errorf "metric must have a type") "failed to expand metric spec"

/-- A record whose `max_replicas` is a string. -/
def badMaxReplicas : Slice Val :=
  Slice.mk [Val.map [("max_replicas", Val.str "5")]]

/-- A list whose first element is not a map. -/
def badElement : Slice Val :=
  Slice.mk [Val.bool true]

/-- A record with a pods metric whose metric identifier has no name. -/
def badIdentifier : Slice Val :=
  Slice.mk [Val.map
    [("max_replicas", Val.int 5),
     ("metric", Val.slice (Slice.mk [Val.map
        [("type", Val.str "Pods"),
         ("pods", Val.slice (Slice.mk [Val.map
            [("metric", Val.slice (Slice.mk [Val.map []]))]]))]]))]]

/-- A record with a resource metric whose target value is not a quantity. -/
def badQuantity : Slice Val :=
  Slice.mk [Val.map
    [("max_replicas", Val.int 5),
     ("metric", Val.slice (Slice.mk [Val.map
        [("type", Val.str "Resource"),
         ("resource", Val.slice (Slice.mk [Val.map
            [("name", Val.str "cpu"),
             ("target", Val.slice (Slice.mk [Val.map
                [("type", Val.str "Value"), ("value", Val.str "lots")]]))]]))]]))]]

/-- A well-typed record with two metrics, the second without a `type`. -/
def secondMetricUntyped : Slice Val :=
  Slice.mk [Val.map
    [("max_replicas", Val.int 5),
     ("metric", Val.slice (Slice.mk
        [Val.map [("type", Val.str "Resource")], Val.map [("resource", Val.slice Slice.nil)]]))]]

/-! ## Definitions used by the statements about patches, sources and bounds -/

/-- The patch as the spec words it: the replace operation on `/maxReplicas` if
`max_replicas` changed, followed by the replace operation on `/minReplicas` if
`min_replicas` changed, each with the value the resource state holds for the
field, and nothing else. -/
def expectedPatch (pfx pathPfx : String) (d : ResourceData) : List PatchOperation :=
  (if d.HasChange (pfx ++ "max_replicas") = true then
      [PatchOperation.Replace ⟨pathPfx ++ "/maxReplicas", d.Get (pfx ++ "max_replicas")⟩]
    else []) ++
  (if d.HasChange (pfx ++ "min_replicas") = true then
      [PatchOperation.Replace ⟨pathPfx ++ "/minReplicas", d.Get (pfx ++ "min_replicas")⟩]
    else [])

/-- The number of changed fields among `max_replicas` and `min_replicas`. -/
def changedCount (pfx : String) (d : ResourceData) : Nat :=
  (if d.HasChange (pfx ++ "max_replicas") = true then 1 else 0) +
  (if d.HasChange (pfx ++ "min_replicas") = true then 1 else 0)

/-- The resource state is typed as the schema types it: a changed replica field
holds an `int`. -/
def intWhenChanged (pfx : String) (d : ResourceData) : Prop :=
  (d.HasChange (pfx ++ "max_replicas") = true → ∃ a, d.Get (pfx ++ "max_replicas") = Val.int a) ∧
  (d.HasChange (pfx ++ "min_replicas") = true → ∃ b, d.Get (pfx ++ "min_replicas") = Val.int b)

/-- A resource state in which `max_replicas` changed to `5`, `min_replicas` to `2`,
and the `metric` list changed too. -/
def sampleBothChanged : ResourceData :=
  { HasChange := fun key =>
      decide (key = "spec.0.max_replicas" ∨ key = "spec.0.min_replicas" ∨ key = "spec.0.metric"),
    Get := fun key =>
      if key = "spec.0.max_replicas" then Val.int 5
      else if key = "spec.0.min_replicas" then Val.int 2
      else Val.slice (Slice.mk []) }

/-- The number of metric sources populated in a metric spec. -/
def populatedSources {Q S : Type} (s : MetricSpec Q S) : Nat :=
  (if s.Resource.isSome then 1 else 0) + (if s.External.isSome then 1 else 0) +
  (if s.Pods.isSome then 1 else 0) + (if s.Object.isSome then 1 else 0)

/-- The number of keys among `resource`, `external`, `pods`, `object` under which
the metric map carries a one-element list. -/
def oneElementKeys (m : GoMap) : Nat :=
  (if (lenOne (GoMap.index m "resource")).isSome then 1 else 0) +
  (if (lenOne (GoMap.index m "external")).isSome then 1 else 0) +
  (if (lenOne (GoMap.index m "pods")).isSome then 1 else 0) +
  (if (lenOne (GoMap.index m "object")).isSome then 1 else 0)

/-- A metric map that carries a one-element list under `resource` and under
`pods`. -/
def twoSourcesMetric : GoMap :=
  [("type", Val.str "Resource"),
   ("resource", Val.slice (Slice.mk [Val.map
      [("name", Val.str "cpu"),
       ("target", Val.slice (Slice.mk [Val.map
          [("type", Val.str "Utilization"), ("average_utilization", Val.int 80)]]))]])),
   ("pods", Val.slice (Slice.mk [Val.map
      [("metric", Val.slice (Slice.mk [Val.map [("name", Val.str "packets")]])),
       ("target", Val.slice (Slice.mk [Val.map
          [("type", Val.str "AverageValue"), ("average_value", Val.str "7")]]))]]))]

/-- A record whose `max_replicas` is negative. -/
def negativeMaxReplicas : Slice Val :=
  Slice.mk [Val.map [("max_replicas", Val.int (-1))]]

/-- A record whose `min_replicas` is `2^31`. -/
def hugeMinReplicas : Slice Val :=
  Slice.mk [Val.map [("max_replicas", Val.int 5), ("min_replicas", Val.int 2147483648)]]

/-- A record whose `min_replicas` is `2^32 + 1`. -/
def wrappedMinReplicas : Slice Val :=
  Slice.mk [Val.map [("max_replicas", Val.int 5), ("min_replicas", Val.int 4294967297)]]

/-- A metric target map whose `average_value` is not a quantity. -/
def unparsableTarget : GoMap :=
  [("type", Val.str "AverageValue"), ("average_value", Val.str "lots")]

/-- A metric target map of kind `value`. -/
def valueTargetRecord : GoMap :=
  [("type", Val.str "Value"), ("value", Val.str "10")]

/-- A metric target map that carries both an `average_value` and a `value`. -/
def bothValuesTargetRecord : GoMap :=
  [("type", Val.str "Value"), ("average_value", Val.str "1"), ("value", Val.str "2")]

/-- A metric target map of kind `average_utilization` with empty quantity
strings. -/
def utilizationTargetRecord : GoMap :=
  [("type", Val.str "Utilization"), ("average_utilization", Val.int 80),
   ("average_value", Val.str ""), ("value", Val.str "")]

/-- The fields that `expandHorizontalPodAutoscalerV2Spec` reads before the metric
loop are well typed: `max_replicas`, when present, is an `int`, and
`scale_target_ref`, when present, is a list that is a well-typed object
reference. -/
def wtReplicasAndRef (m : GoMap) : Bool :=
  (match GoMap.get m "max_replicas" with
    | some v => (asInt v).isSome
    | none => true) &&
  (match GoMap.get m "scale_target_ref" with
    | some v =>
      match asSlice v with
      | some s => wtObjectReference s
      | none => false
    | none => true)

/-- A record with a metric without `type` whose `max_replicas` is a string. -/
def untypedMetricWrongMax : Slice Val :=
  Slice.mk [Val.map
    [("max_replicas", Val.str "5"),
     ("metric", Val.slice (Slice.mk [Val.map [("resource", Val.slice Slice.nil)]]))]]

/-- A record whose metric list holds a pods metric with a nameless metric
identifier, followed by a metric without `type`. -/
def untypedMetricAfterNameless : Slice Val :=
  Slice.mk [Val.map
    [("max_replicas", Val.int 5),
     ("metric", Val.slice (Slice.mk
        [Val.map
          [("type", Val.str "Pods"),
           ("pods", Val.slice (Slice.mk [Val.map
              [("metric", Val.slice (Slice.mk [Val.map []]))]]))],
         Val.map [("resource", Val.slice Slice.nil)]]))]]

/-- The record of `untypedBetweenTyped`: a well-formed resource metric, then a
metric without `type`, then an element that is not even a map. -/
def untypedBetweenTypedRecord : GoMap :=
  [("max_replicas", Val.int 5),
   ("metric", Val.slice (Slice.mk
      [Val.map
        [("type", Val.str "Resource"),
         ("resource", Val.slice (Slice.mk [Val.map
            [("name", Val.str "cpu"),
             ("target", Val.slice (Slice.mk [Val.map
                [("type", Val.str "Utilization"),
                 ("average_utilization", Val.int 80)]]))]]))],
       Val.map [("resource", Val.slice Slice.nil)],
       Val.bool true]))]

/-- An input list holding `untypedBetweenTypedRecord`. -/
def untypedBetweenTyped : Slice Val :=
  Slice.mk [Val.map untypedBetweenTypedRecord]

/-! ## Reading a map after writing it -/

theorem GoMap.get_set (m : GoMap) (k key : String) (v : Val) :
    GoMap.get (GoMap.set m k v) key = if k = key then some v else GoMap.get m key := by
  induction m with
  | nil => simp [GoMap.set, GoMap.get]
  | cons e rest ih =>
    obtain ⟨k0, w⟩ := e
    by_cases h : k0 = k
    · subst h
      by_cases h2 : k0 = key <;> simp [GoMap.set, GoMap.get, h2]
    · by_cases h2 : k0 = key
      · subst h2
        have h3 : ¬ k = k0 := fun e => h e.symm
        simp [GoMap.set, GoMap.get, h, h3]
      · simp [GoMap.set, GoMap.get, h, h2, ih]

theorem index_type_none_iff (m : GoMap) (k : String) :
    asString (GoMap.index m k) = none ↔
      (GoMap.get m k = none ∨ ∃ v, GoMap.get m k = some v ∧ asString v = none) := by
  unfold GoMap.index
  cases h : GoMap.get m k <;> simp [asString]

theorem path_min_ne_max (p : String) : p ++ "/minReplicas" ≠ p ++ "/maxReplicas" := by
  intro h
  have h2 := congrArg String.data h
  simp only [String.data_append] at h2
  have h3 := List.append_cancel_left h2
  revert h3
  decide

section
variable {Q S : Type} (L : Lib Q S)

/-! ## Expand: where the errors come from -/

theorem expandV2MetricSpec_error (m : GoMap) (s : MetricSpec Q S) (e : GoError)
    (h : expandV2MetricSpec L m = some (s, some e)) :
    asString (GoMap.index m "type") = none ∧ s = {} ∧
      e = GoError.errorf "metric must have a type" := by
  unfold expandV2MetricSpec at h
  cases ht : asString (GoMap.index m "type") with
  | none =>
    simp only [ht, Option.some.injEq, Prod.mk.injEq] at h
    exact ⟨rfl, h.1.symm, h.2.symm⟩
  | some t =>
    simp [ht, Option.bind_eq_some] at h

theorem expandV2MetricSpec_ok (m : GoMap) (s : MetricSpec Q S)
    (h : expandV2MetricSpec L m = some (s, none)) :
    asString (GoMap.index m "type") = some s.Type_ := by
  unfold expandV2MetricSpec at h
  cases ht : asString (GoMap.index m "type") with
  | none => simp [ht] at h
  | some t =>
    simp only [ht, Option.bind_eq_bind, Option.bind_eq_some, Option.pure_def, Option.some.injEq,
      Prod.mk.injEq, and_true] at h
    obtain ⟨a, h1, b, h2, c, h3, d, h4, hs⟩ := h
    subst hs
    have e1 : a.Type_ = t := by
      cases hl : lenOne (GoMap.index m "resource") with
      | none => simp [hl] at h1; subst h1; rfl
      | some p =>
        simp [hl, Option.bind_eq_some] at h1
        obtain ⟨_, _, _, _, rfl⟩ := h1
        rfl
    have e2 : b.Type_ = a.Type_ := by
      cases hl : lenOne (GoMap.index m "external") with
      | none => simp [hl] at h2; subst h2; rfl
      | some p =>
        simp [hl, Option.bind_eq_some] at h2
        obtain ⟨_, _, _, _, rfl⟩ := h2
        rfl
    have e3 : c.Type_ = b.Type_ := by
      cases hl : lenOne (GoMap.index m "pods") with
      | none => simp [hl] at h3; subst h3; rfl
      | some p =>
        simp [hl, Option.bind_eq_some] at h3
        obtain ⟨_, _, _, _, rfl⟩ := h3
        rfl
    have e4 : d.Type_ = c.Type_ := by
      cases hl : lenOne (GoMap.index m "object") with
      | none => simp [hl] at h4; subst h4; rfl
      | some p =>
        simp [hl, Option.bind_eq_some] at h4
        obtain ⟨_, _, _, _, rfl⟩ := h4
        rfl
    rw [e4, e3, e2, e1]

theorem expandMetricsFrom_error (spec : HorizontalPodAutoscalerSpec Q S) (l : List Val)
    (r : Option (HorizontalPodAutoscalerSpec Q S)) (e : GoError)
    (h : expandMetricsFrom L spec l = some (r, some e)) :
    r = none ∧
      e = GoError.wrap (GoError.errorf "metric must have a type")
        "failed to expand metric spec" := by
  induction l generalizing spec with
  | nil => simp [expandMetricsFrom] at h
  | cons v rest ih =>
    unfold expandMetricsFrom at h
    cases hv : asMap v with
    | none => simp [hv] at h
    | some mm =>
      cases hx : expandV2MetricSpec L mm with
      | none => simp [hv, hx] at h
      | some p =>
        obtain ⟨ms, err⟩ := p
        cases err with
        | none =>
          simp [hv, hx] at h
          exact ih _ h
        | some e0 =>
          simp [hv, hx] at h
          obtain ⟨_, _, he0⟩ := expandV2MetricSpec_error L mm ms e0 hx
          subst he0
          exact ⟨h.1.symm, h.2.symm⟩

theorem expandHPA_error_of_map (m : GoMap) (rest : List Val)
    (r : Option (HorizontalPodAutoscalerSpec Q S)) (e : GoError)
    (h : expandHorizontalPodAutoscalerV2Spec L (Slice.mk (Val.map m :: rest)) = some (r, some e)) :
    r = none ∧
      e = GoError.wrap (GoError.errorf "metric must have a type")
        "failed to expand metric spec" := by
  unfold expandHorizontalPodAutoscalerV2Spec at h
  simp only [Slice.toList, Val.isNil, asMap, Option.bind_eq_bind, Option.some_bind,
    Option.bind_eq_some, Bool.false_eq_true, if_false] at h
  obtain ⟨a, _, b, _, h⟩ := h
  cases hs : asSlice (GoMap.index m "metric") with
  | none => simp [hs] at h
  | some v =>
    simp only [hs] at h
    exact expandMetricsFrom_error L _ _ r e h

/-! ## Flatten: when it returns -/

theorem flattenV2MetricSpec_isSome_iff (spec : MetricSpec Q S) :
    (flattenV2MetricSpec L spec).isSome = true ↔ sourcesFlatten L spec := by
  unfold flattenV2MetricSpec sourcesFlatten
  cases hr : spec.Resource <;> cases he : spec.External <;> cases hp : spec.Pods <;>
    cases ho : spec.Object <;>
    simp [Option.isSome_iff_exists, Option.bind_eq_some] <;> aesop

theorem flattenMetricsFrom_isSome_iff (acc : Slice Val) (ms : List (MetricSpec Q S)) :
    (flattenMetricsFrom L acc ms).isSome = true ↔
      ∀ x ∈ ms, (flattenV2MetricSpec L x).isSome = true := by
  induction ms generalizing acc with
  | nil => simp [flattenMetricsFrom]
  | cons x rest ih =>
    unfold flattenMetricsFrom
    cases hx : flattenV2MetricSpec L x with
    | none => simp [hx]
    | some fm => simp [hx, ih]

end

/-! ## The claims -/

section
variable {Q S : Type} (L : Lib Q S)

/-- C1, evaluated at a well-formed record with one object metric: expanding the
record succeeds and flattening the result returns a record whose metric map has no
`object` entry and carries the object source under `pods`, while the input metric
has an `object` entry and no `pods` entry. So flatten after expand does not give
the record back, whatever default values are identified. -/
theorem roundTrip_object_metric_moves_to_pods :
    ∃ spec out metric,
      expandHorizontalPodAutoscalerV2Spec sampleLib (Slice.mk [sampleObjectRecord])
        = some (some spec, none) ∧
      flattenHorizontalPodAutoscalerV2Spec sampleLib spec = some (Slice.mk [Val.map out]) ∧
      GoMap.get out "metric" = some (Val.slice (Slice.mk [Val.map metric])) ∧
      GoMap.get metric "object" = none ∧
      (GoMap.get metric "pods").isSome = true ∧
      (GoMap.get sampleObjectMetric "object").isSome = true ∧
      GoMap.get sampleObjectMetric "pods" = none :=
  ⟨_, _, _, rfl, rfl, rfl, rfl, rfl, rfl, rfl⟩

/-- C2, at the failing input: when `String` on a nil quantity pointer panics,
flattening a metric target whose `Value` is set and whose `AverageValue` is absent
panics, and so does flattening a whole spec that holds such a target. -/
theorem flatten_panics_on_value_without_averageValue
    (hnil : L.nilQuantityString = none) (q : Q) (ty : String) (u : Option Int) :
    flattenV2MetricTarget L
        { Type_ := ty, Value := some q, AverageValue := none, AverageUtilization := u } = none ∧
      flattenHorizontalPodAutoscalerV2Spec L (valueOnlySpec q : HorizontalPodAutoscalerSpec Q S)
        = none := by
  constructor
  · cases u <;> simp [flattenV2MetricTarget, Lib.String, hnil]
  · simp [flattenHorizontalPodAutoscalerV2Spec, valueOnlySpec, Slice.toList, flattenMetricsFrom,
      flattenV2MetricSpec, flattenV2ResourceMetricSource, flattenV2MetricTarget, Lib.String, hnil]

/-- The theorem `flatten_panics_on_value_without_averageValue` at the sample
library. -/
theorem flatten_panics_on_value_without_averageValue_witness :
    sampleLib.nilQuantityString = none ∧
      flattenV2MetricTarget sampleLib
        { Type_ := "Value", Value := some "10", AverageValue := none,
          AverageUtilization := none } = none ∧
      flattenHorizontalPodAutoscalerV2Spec sampleLib
        (valueOnlySpec "10" : HorizontalPodAutoscalerSpec String (Slice Val)) = none :=
  ⟨rfl, flatten_panics_on_value_without_averageValue sampleLib rfl "10" "Value" none⟩

/-- C4: `expandHorizontalPodAutoscalerV2Spec` returns an error whose text is
"failed to expand HorizontalPodAutoscaler.Spec: null or empty input" exactly when
the input is the nil slice, the empty slice, or a slice whose first element is nil;
and for those inputs the result is the nil spec together with that error. -/
theorem expand_null_or_empty_iff (inp : Slice Val) :
    ((∃ r e, expandHorizontalPodAutoscalerV2Spec L inp = some (r, some e) ∧
          e.Error = "failed to expand HorizontalPodAutoscaler.Spec: null or empty input") ↔
        (inp = Slice.nil ∨ inp = Slice.mk [] ∨ ∃ rest, inp = Slice.mk (Val.nil :: rest))) ∧
      ((inp = Slice.nil ∨ inp = Slice.mk [] ∨ ∃ rest, inp = Slice.mk (Val.nil :: rest)) →
        expandHorizontalPodAutoscalerV2Spec L inp = some (none, some (GoError.errorf
          "failed to expand HorizontalPodAutoscaler.Spec: null or empty input"))) := by
  have hfwd : (inp = Slice.nil ∨ inp = Slice.mk [] ∨ ∃ rest, inp = Slice.mk (Val.nil :: rest)) →
      expandHorizontalPodAutoscalerV2Spec L inp = some (none, some (GoError.errorf
        "failed to expand HorizontalPodAutoscaler.Spec: null or empty input")) := by
    rintro (h | h | ⟨rest, h⟩) <;> subst h <;>
      simp [expandHorizontalPodAutoscalerV2Spec, Slice.toList, Val.isNil]
  refine ⟨⟨?_, fun h => ⟨none, _, hfwd h, rfl⟩⟩, hfwd⟩
  rintro ⟨r, e, hr, he⟩
  cases inp with
  | nil => exact Or.inl rfl
  | mk xs =>
    cases xs with
    | nil => exact Or.inr (Or.inl rfl)
    | cons x rest =>
      cases x with
      | nil => exact Or.inr (Or.inr ⟨rest, rfl⟩)
      | map m =>
        obtain ⟨_, h2⟩ := expandHPA_error_of_map L m rest r e hr
        subst h2
        have hne : (GoError.wrap (GoError.errorf "metric must have a type")
            "failed to expand metric spec").Error ≠
            "failed to expand HorizontalPodAutoscaler.Spec: null or empty input" := by decide
        exact absurd he hne
      | _ =>
        simp [expandHorizontalPodAutoscalerV2Spec, Slice.toList, Val.isNil, asMap] at hr

/-- C5: `expandV2MetricSpec` returns an error exactly when the map has no `type`
key or the `type` value is not a string; the error is then "metric must have a
type" and the returned metric spec is the zero value; and when it returns without
an error, the `type` entry of the map is the string held by the `Type` field of
the result. -/
theorem expandV2MetricSpec_type_error_iff (m : GoMap) :
    ((∃ s e, expandV2MetricSpec L m = some (s, some e)) ↔
        (GoMap.get m "type" = none ∨ ∃ v, GoMap.get m "type" = some v ∧ asString v = none)) ∧
      (∀ s e, expandV2MetricSpec L m = some (s, some e) →
        s = {} ∧ e = GoError.errorf "metric must have a type" ∧
          e.Error = "metric must have a type") ∧
      (∀ s, expandV2MetricSpec L m = some (s, none) →
        GoMap.get m "type" = some (Val.str s.Type_)) := by
  refine ⟨⟨?_, ?_⟩, ?_, ?_⟩
  · rintro ⟨s, e, h⟩
    exact (index_type_none_iff m "type").1 (expandV2MetricSpec_error L m s e h).1
  · intro h
    have h2 := (index_type_none_iff m "type").2 h
    exact ⟨{}, GoError.errorf "metric must have a type", by simp [expandV2MetricSpec, h2]⟩
  · intro s e h
    obtain ⟨_, h2, h3⟩ := expandV2MetricSpec_error L m s e h
    subst h3
    exact ⟨h2, rfl, rfl⟩
  · intro s h
    have h2 := expandV2MetricSpec_ok L m s h
    unfold GoMap.index at h2
    cases hg : GoMap.get m "type" with
    | none => simp [hg, asString] at h2
    | some v =>
      cases v <;> simp [hg, asString] at h2
      rw [h2]

/-- C7, at the failing input: a metric spec in which only the object source is
populated flattens to a map that has no `object` entry and has a `pods` entry. -/
theorem flattenV2MetricSpec_object_only_has_pods_key :
    ∃ m, flattenV2MetricSpec sampleLib sampleObjectOnly = some m ∧
      GoMap.get m "object" = none ∧ (GoMap.get m "pods").isSome = true ∧
      GoMap.get m "resource" = none ∧ GoMap.get m "external" = none :=
  ⟨_, rfl, rfl, rfl, rfl, rfl⟩

/-- The part of C7 that holds: a metric spec in which only the resource source is
populated flattens, when the resource source does, to a map that holds the
flattened resource source under `resource` and has none of the keys `external`,
`pods`, `object`. -/
theorem flattenV2MetricSpec_resource_only (spec : MetricSpec Q S)
    (r : ResourceMetricSource Q) (fr : Slice Val)
    (hr : spec.Resource = some r) (he : spec.External = none) (hp : spec.Pods = none)
    (ho : spec.Object = none) (hfr : flattenV2ResourceMetricSource L r = some fr) :
    ∃ m, flattenV2MetricSpec L spec = some m ∧
      GoMap.get m "resource" = some (Val.slice fr) ∧ GoMap.get m "external" = none ∧
      GoMap.get m "pods" = none ∧ GoMap.get m "object" = none := by
  simp [flattenV2MetricSpec, hr, he, hp, ho, hfr, GoMap.get_set, GoMap.get]

/-- C8: for a metric spec whose object source is populated, `flattenV2MetricSpec`
returns exactly when the flatten helper of every populated source returns, and the
map it returns holds the flattened object source under `pods` (also when the pods
source is populated too) and has no `object` key. -/
theorem flattenV2MetricSpec_object_under_pods (spec : MetricSpec Q S)
    (o : ObjectMetricSource Q S) (h : spec.Object = some o) :
    ((flattenV2MetricSpec L spec).isSome = true ↔ sourcesFlatten L spec) ∧
      ∀ m, flattenV2MetricSpec L spec = some m →
        ∃ fo, flattenV2ObjectMetricSource L o = some fo ∧
          GoMap.get m "pods" = some (Val.slice fo) ∧ GoMap.get m "object" = none := by
  refine ⟨flattenV2MetricSpec_isSome_iff L spec, ?_⟩
  intro m hm
  unfold flattenV2MetricSpec at hm
  simp only [h] at hm
  cases hfo : flattenV2ObjectMetricSource L o with
  | none =>
    simp [hfo] at hm
  | some fo =>
    refine ⟨fo, rfl, ?_⟩
    cases hr : spec.Resource <;> cases he : spec.External <;> cases hp : spec.Pods <;>
      simp only [hr, he, hp, hfo] at hm
    all_goals
      simp [Option.bind_eq_some] at hm
    all_goals
      first
      | (subst hm
         simp [GoMap.get_set, GoMap.get])
      | (obtain ⟨_, _, rfl⟩ := hm
         simp [GoMap.get_set, GoMap.get])
      | (obtain ⟨_, _, _, _, rfl⟩ := hm
         simp [GoMap.get_set, GoMap.get])
      | (obtain ⟨_, _, _, _, _, _, rfl⟩ := hm
         simp [GoMap.get_set, GoMap.get])

/-- The theorem `flattenV2MetricSpec_object_under_pods` at a metric spec with both
the pods and the object source populated: the flattening exists, and its `pods`
entry is the flattened object source. -/
theorem flattenV2MetricSpec_object_under_pods_witness :
    samplePodsAndObject.Object = some sampleObjectSource ∧
      ∃ m fo, flattenV2MetricSpec sampleLib samplePodsAndObject = some m ∧
        flattenV2ObjectMetricSource sampleLib sampleObjectSource = some fo ∧
        GoMap.get m "pods" = some (Val.slice fo) ∧ GoMap.get m "object" = none := by
  refine ⟨rfl, ?_⟩
  have h := flattenV2MetricSpec_object_under_pods sampleLib samplePodsAndObject
    sampleObjectSource rfl
  have hs : (flattenV2MetricSpec sampleLib samplePodsAndObject).isSome = true := rfl
  obtain ⟨m, hm⟩ := Option.isSome_iff_exists.1 hs
  obtain ⟨fo, h1, h2, h3⟩ := h.2 m hm
  exact ⟨m, fo, hm, h1, h2, h3⟩

/-- C9: `flattenHorizontalPodAutoscalerV2Spec` returns exactly when every metric of
the spec flattens, and what it returns is a one-element list whose map has the
`min_replicas` entry exactly when `MinReplicas` is non-nil, holding the pointed-to
number. -/
theorem flatten_min_replicas (spec : HorizontalPodAutoscalerSpec Q S) :
    ((flattenHorizontalPodAutoscalerV2Spec L spec).isSome = true ↔
        ∀ x ∈ spec.Metrics.toList, (flattenV2MetricSpec L x).isSome = true) ∧
      ∀ out, flattenHorizontalPodAutoscalerV2Spec L spec = some out →
        ∃ m, out = Slice.mk [Val.map m] ∧
          GoMap.get m "min_replicas" = spec.MinReplicas.map Val.int32 := by
  constructor
  · rw [← flattenMetricsFrom_isSome_iff L (Slice.mk []) spec.Metrics.toList]
    unfold flattenHorizontalPodAutoscalerV2Spec
    cases hf : flattenMetricsFrom L (Slice.mk []) spec.Metrics.toList <;> simp [hf]
  · intro out hout
    unfold flattenHorizontalPodAutoscalerV2Spec at hout
    cases hf : flattenMetricsFrom L (Slice.mk []) spec.Metrics.toList with
    | none => simp [hf] at hout
    | some ms =>
      simp [hf] at hout
      subst hout
      refine ⟨_, rfl, ?_⟩
      cases hmin : spec.MinReplicas <;> simp [GoMap.get_set, GoMap.get]

/-- C10: when `max_replicas` is reported changed with an `int` value `v` and
`min_replicas` is not changed, the patch is exactly one replace operation on
`pathPfx + "/maxReplicas"` with value `v`; when `max_replicas` is not changed, the
patch is empty if `min_replicas` is not changed either, it is the single replace
operation on `pathPfx + "/minReplicas"` if `min_replicas` changed to an `int`, and
no operation of any returned patch has the path `pathPfx + "/maxReplicas"`. -/
theorem patch_max_replicas (pfx pathPfx : String) (d : ResourceData) :
    (∀ v, d.HasChange (pfx ++ "max_replicas") = true →
        d.Get (pfx ++ "max_replicas") = Val.int v →
        d.HasChange (pfx ++ "min_replicas") = false →
        patchHorizontalPodAutoscalerV2Spec pfx pathPfx d =
          some (Slice.mk [PatchOperation.Replace ⟨pathPfx ++ "/maxReplicas", Val.int v⟩])) ∧
      (d.HasChange (pfx ++ "max_replicas") = false →
        (d.HasChange (pfx ++ "min_replicas") = false →
          patchHorizontalPodAutoscalerV2Spec pfx pathPfx d = some (Slice.mk [])) ∧
        (∀ w, d.HasChange (pfx ++ "min_replicas") = true →
          d.Get (pfx ++ "min_replicas") = Val.int w →
          patchHorizontalPodAutoscalerV2Spec pfx pathPfx d =
            some (Slice.mk [PatchOperation.Replace ⟨pathPfx ++ "/minReplicas", Val.int w⟩])) ∧
        ∀ ops, patchHorizontalPodAutoscalerV2Spec pfx pathPfx d = some ops →
          ∀ op ∈ ops.toList, op.path ≠ pathPfx ++ "/maxReplicas") := by
  refine ⟨?_, ?_⟩
  · intro v h1 h2 h3
    simp [patchHorizontalPodAutoscalerV2Spec, h1, h2, h3, asInt, Slice.append, Slice.toList]
  · intro h1
    refine ⟨?_, ?_, ?_⟩
    · intro h3
      simp [patchHorizontalPodAutoscalerV2Spec, h1, h3]
    · intro w h3 h4
      simp [patchHorizontalPodAutoscalerV2Spec, h1, h3, h4, asInt, Slice.append, Slice.toList]
    · intro ops hops op hop
      unfold patchHorizontalPodAutoscalerV2Spec at hops
      by_cases h3 : d.HasChange (pfx ++ "min_replicas") = true
      · cases hg : asInt (d.Get (pfx ++ "min_replicas")) with
        | none => simp [h1, h3, hg] at hops
        | some w =>
          simp [h1, h3, hg, Slice.append, Slice.toList] at hops
          subst hops
          simp [Slice.toList] at hop
          subst hop
          exact path_min_ne_max pathPfx
      · simp [h1, h3] at hops
        subst hops
        simp [Slice.toList] at hop

/-- The theorem `patch_max_replicas` at a resource state in which `max_replicas`
changed to `5` and `min_replicas` did not change. -/
theorem patch_max_replicas_witness :
    patchHorizontalPodAutoscalerV2Spec "spec.0." "/spec" sampleMaxChanged =
      some (Slice.mk [PatchOperation.Replace ⟨"/spec/maxReplicas", Val.int 5⟩]) :=
  (patch_max_replicas "spec.0." "/spec" sampleMaxChanged).1 5 (by decide) rfl (by decide)

end

/-! ## Well-typed inputs never panic -/

section
variable {Q S : Type} (L : Lib Q S)

theorem expandV2CrossVersionObjectReference_isSome (inp : Slice Val)
    (h : wtObjectReference inp = true) :
    (expandV2CrossVersionObjectReference inp).isSome = true := by
  unfold wtObjectReference at h
  unfold expandV2CrossVersionObjectReference
  cases hl : inp.toList with
  | nil => rfl
  | cons x rest =>
    simp only [hl] at h ⊢
    cases hn : x.isNil with
    | true => simp
    | false =>
      cases hm : asMap x with
      | none => simp [hn, hm] at h
      | some m =>
        simp only [hn, hm, Bool.false_or, Bool.and_eq_true, wtOptString] at h
        obtain ⟨⟨h1, h2⟩, h3⟩ := h
        cases g1 : GoMap.get m "api_version" <;> cases g2 : GoMap.get m "kind" <;>
          cases g3 : GoMap.get m "name" <;>
          simp only [g1, g2, g3, Option.isSome_iff_exists] at h1 h2 h3 <;>
          (try obtain ⟨s1, h1⟩ := h1) <;> (try obtain ⟨s2, h2⟩ := h2) <;>
          (try obtain ⟨s3, h3⟩ := h3) <;> simp [*]

theorem expandV2MetricTarget_isSome (m : GoMap) (h : wtTarget L m = true) :
    (expandV2MetricTarget L m).isSome = true := by
  unfold wtTarget wtQuantity at h
  unfold expandV2MetricTarget
  simp only [Bool.and_eq_true] at h
  obtain ⟨h1, h2⟩ := h
  have step : ∀ (k : String) (t : MetricTarget Q) (f : MetricTarget Q → Q → MetricTarget Q),
      (match asString (GoMap.index m k) with
        | some v => decide (v = "") || (L.MustParse v).isSome
        | none => true) = true →
      ((match asString (GoMap.index m k) with
        | some v => if v ≠ "" then (L.MustParse v).map fun q => f t q else some t
        | none => some t)).isSome = true := by
    intro k t f hk
    cases hs : asString (GoMap.index m k) with
    | none => simp
    | some v =>
      simp only [hs, Bool.or_eq_true, decide_eq_true_eq] at hk ⊢
      by_cases hv : v = ""
      · simp [hv]
      · rcases hk with hk | hk
        · exact absurd hk hv
        · simp [hv, hk]
  simp only [Option.bind_eq_bind, Option.pure_def]
  obtain ⟨t1, ht1⟩ := Option.isSome_iff_exists.1 (step "average_value" _
    (fun t q => { t with AverageValue := some q }) h1)
  rw [ht1]
  simp only [Option.some_bind]
  obtain ⟨t2, ht2⟩ := Option.isSome_iff_exists.1 (step "value" t1
    (fun t q => { t with Value := some q }) h2)
  rw [ht2]
  rfl

theorem expandTargetField_isSome (m : GoMap) (old : MetricTarget Q)
    (h : wtOne "target" (wtTarget L) m = true) :
    (expandTargetField L m old).isSome = true := by
  unfold wtOne at h
  unfold expandTargetField
  cases hl : lenOne (GoMap.index m "target") with
  | none => rfl
  | some p =>
    obtain ⟨v, e⟩ := p
    simp only [hl] at h ⊢
    cases he : asMap e with
    | none => simp [he] at h
    | some tm =>
      simp only [he] at h
      simpa using expandV2MetricTarget_isSome L tm h

theorem expandV2MetricIdentifier_isSome (m : GoMap) (h : wtIdentifier L m = true) :
    (expandV2MetricIdentifier L m).isSome = true := by
  unfold wtIdentifier at h
  unfold expandV2MetricIdentifier
  simp only [Bool.and_eq_true] at h
  obtain ⟨h1, h2⟩ := h
  obtain ⟨name, hname⟩ := Option.isSome_iff_exists.1 h1
  cases hl : lenOne (GoMap.index m "selector") with
  | none => simp [hname]
  | some p =>
    obtain ⟨v, e⟩ := p
    simp only [hl] at h2
    obtain ⟨sel, hsel⟩ := Option.isSome_iff_exists.1 h2
    simp [hname, hsel]

theorem expandMetricField_isSome (m : GoMap) (old : MetricIdentifier S)
    (h : wtOne "metric" (wtIdentifier L) m = true) :
    (expandMetricField L m old).isSome = true := by
  unfold wtOne at h
  unfold expandMetricField
  cases hl : lenOne (GoMap.index m "metric") with
  | none => rfl
  | some p =>
    obtain ⟨v, e⟩ := p
    simp only [hl] at h ⊢
    cases he : asMap e with
    | none => simp [he] at h
    | some im =>
      simp only [he] at h
      simpa using expandV2MetricIdentifier_isSome L im h

theorem expandV2ResourceMetricSource_isSome (m : GoMap)
    (h : wtOne "target" (wtTarget L) m = true) :
    (expandV2ResourceMetricSource L m).isSome = true := by
  unfold expandV2ResourceMetricSource
  simp only [Option.bind_eq_bind, Option.pure_def]
  obtain ⟨t, ht⟩ := Option.isSome_iff_exists.1 (expandTargetField_isSome L m
    (match asString (GoMap.index m "name") with
      | some v => ({ ({} : ResourceMetricSource Q) with Name := v })
      | none => {}).Target h)
  rw [ht]
  rfl

theorem expandV2ExternalMetricSource_isSome (m : GoMap)
    (h : (wtOne "metric" (wtIdentifier L) m && wtOne "target" (wtTarget L) m) = true) :
    (expandV2ExternalMetricSource L m).isSome = true := by
  simp only [Bool.and_eq_true] at h
  unfold expandV2ExternalMetricSource
  simp only [Option.bind_eq_bind, Option.pure_def]
  obtain ⟨i, hi⟩ := Option.isSome_iff_exists.1 (expandMetricField_isSome L m
    ({} : ExternalMetricSource Q S).Metric h.1)
  rw [hi]
  simp only [Option.some_bind]
  obtain ⟨t, ht⟩ := Option.isSome_iff_exists.1 (expandTargetField_isSome L m
    ({} : ExternalMetricSource Q S).Target h.2)
  rw [ht]
  rfl

theorem expandV2PodsMetricSource_isSome (m : GoMap)
    (h : (wtOne "metric" (wtIdentifier L) m && wtOne "target" (wtTarget L) m) = true) :
    (expandV2PodsMetricSource L m).isSome = true := by
  simp only [Bool.and_eq_true] at h
  unfold expandV2PodsMetricSource
  simp only [Option.bind_eq_bind, Option.pure_def]
  obtain ⟨i, hi⟩ := Option.isSome_iff_exists.1 (expandMetricField_isSome L m
    ({} : PodsMetricSource Q S).Metric h.1)
  rw [hi]
  simp only [Option.some_bind]
  obtain ⟨t, ht⟩ := Option.isSome_iff_exists.1 (expandTargetField_isSome L m
    ({} : PodsMetricSource Q S).Target h.2)
  rw [ht]
  rfl

theorem expandV2ObjectMetricSource_isSome (m : GoMap)
    (h : (wtDescribedObject m && wtOne "metric" (wtIdentifier L) m &&
      wtOne "target" (wtTarget L) m) = true) :
    (expandV2ObjectMetricSource L m).isSome = true := by
  simp only [Bool.and_eq_true] at h
  obtain ⟨⟨h1, h2⟩, h3⟩ := h
  unfold expandV2ObjectMetricSource
  simp only [Option.bind_eq_bind, Option.pure_def]
  have hd : ((match lenOne (GoMap.index m "described_object") with
      | some (v, _) => expandV2CrossVersionObjectReference v
      | none => some ({} : ObjectMetricSource Q S).DescribedObject)).isSome = true := by
    unfold wtDescribedObject at h1
    cases hl : lenOne (GoMap.index m "described_object") with
    | none => rfl
    | some p =>
      obtain ⟨v, e⟩ := p
      simp only [hl] at h1 ⊢
      exact expandV2CrossVersionObjectReference_isSome v h1
  obtain ⟨d, hd⟩ := Option.isSome_iff_exists.1 hd
  rw [hd]
  simp only [Option.some_bind]
  obtain ⟨i, hi⟩ := Option.isSome_iff_exists.1 (expandMetricField_isSome L m
    ({} : ObjectMetricSource Q S).Metric h2)
  rw [hi]
  simp only [Option.some_bind]
  obtain ⟨t, ht⟩ := Option.isSome_iff_exists.1 (expandTargetField_isSome L m
    ({} : ObjectMetricSource Q S).Target h3)
  rw [ht]
  rfl

theorem sourceStep_isSome {A : Type} (m : GoMap) (k : String) (body : GoMap → Bool)
    (ex : GoMap → Option A) (upd : A → MetricSpec Q S) (spec : MetricSpec Q S)
    (hex : ∀ sm, body sm = true → (ex sm).isSome = true) (h : wtOne k body m = true) :
    ∃ out, (match lenOne (GoMap.index m k) with
      | some (_, e) => (asMap e).bind fun sm => (ex sm).bind fun r => some (upd r)
      | none => some spec) = some out := by
  unfold wtOne at h
  cases hl : lenOne (GoMap.index m k) with
  | none => exact ⟨spec, rfl⟩
  | some p =>
    obtain ⟨v, e⟩ := p
    simp only [hl] at h ⊢
    cases he : asMap e with
    | none => simp [he] at h
    | some sm =>
      simp only [he] at h
      obtain ⟨r, hr⟩ := Option.isSome_iff_exists.1 (hex sm h)
      exact ⟨upd r, by simp [hr]⟩

theorem expandV2MetricSpec_isSome (m : GoMap) (h : wtMetric L (Val.map m) = true) :
    (expandV2MetricSpec L m).isSome = true := by
  unfold wtMetric at h
  simp only [asMap, Bool.and_eq_true] at h
  obtain ⟨⟨⟨h1, h2⟩, h3⟩, h4⟩ := h
  unfold expandV2MetricSpec
  cases ht : asString (GoMap.index m "type") with
  | none => rfl
  | some t =>
    simp only [Option.bind_eq_bind, Option.pure_def]
    obtain ⟨a, ha⟩ := sourceStep_isSome m "resource" _ (expandV2ResourceMetricSource L)
      (fun r => { ({ ({} : MetricSpec Q S) with Type_ := t }) with Resource := some r })
      { ({} : MetricSpec Q S) with Type_ := t }
      (expandV2ResourceMetricSource_isSome L) h1
    rw [ha]
    simp only [Option.some_bind]
    obtain ⟨b, hb⟩ := sourceStep_isSome m "external" _ (expandV2ExternalMetricSource L)
      (fun r => { a with External := some r }) a
      (expandV2ExternalMetricSource_isSome L) h2
    rw [hb]
    simp only [Option.some_bind]
    obtain ⟨c, hc⟩ := sourceStep_isSome m "pods" _ (expandV2PodsMetricSource L)
      (fun r => { b with Pods := some r }) b
      (expandV2PodsMetricSource_isSome L) h3
    rw [hc]
    simp only [Option.some_bind]
    obtain ⟨d, hd⟩ := sourceStep_isSome m "object" _ (expandV2ObjectMetricSource L)
      (fun r => { c with Object := some r }) c
      (expandV2ObjectMetricSource_isSome L) h4
    rw [hd]
    rfl

theorem expandMetricsFrom_wellTyped (spec : HorizontalPodAutoscalerSpec Q S) (l : List Val)
    (h : ∀ v ∈ l, wtMetric L v = true) :
    (l.any lacksStringType = true →
        expandMetricsFrom L spec l = some (none, some errMalformedMetric)) ∧
      (l.any lacksStringType = false →
        ∃ out, expandMetricsFrom L spec l = some (some out, none)) := by
  induction l generalizing spec with
  | nil => simp [expandMetricsFrom]
  | cons v rest ih =>
    have hv : wtMetric L v = true := h v (List.mem_cons_self _ _)
    have hrest : ∀ w ∈ rest, wtMetric L w = true := fun w hw => h w (List.mem_cons_of_mem _ hw)
    cases hm : asMap v with
    | none => simp [wtMetric, hm] at hv
    | some mm =>
      have hv2 : wtMetric L (Val.map mm) = true := by
        cases v <;> simp [asMap] at hm
        subst hm
        exact hv
      obtain ⟨p, hp⟩ := Option.isSome_iff_exists.1 (expandV2MetricSpec_isSome L mm hv2)
      obtain ⟨ms, err⟩ := p
      unfold expandMetricsFrom
      cases ht : asString (GoMap.index mm "type") with
      | none =>
        have hp2 : expandV2MetricSpec L mm
            = some ({}, some (GoError.errorf "metric must have a type")) := by
          simp [expandV2MetricSpec, ht]
        simp [hm, hp2, lacksStringType, ht, errMalformedMetric]
      | some t =>
        cases err with
        | some e0 =>
          have := (expandV2MetricSpec_error L mm ms e0 hp).1
          rw [ht] at this
          cases this
        | none =>
          have hih := ih { spec with Metrics := spec.Metrics.append ms } hrest
          simpa [hm, hp, lacksStringType, ht] using hih

theorem expand_wellTyped (inp : Slice Val) (h : WellTyped L inp = true) :
    (inputAbsent inp →
        expandHorizontalPodAutoscalerV2Spec L inp = some (none, some errNullOrEmpty)) ∧
      (¬ inputAbsent inp → (metricList inp).any lacksStringType = true →
        expandHorizontalPodAutoscalerV2Spec L inp = some (none, some errMalformedMetric)) ∧
      (¬ inputAbsent inp → (metricList inp).any lacksStringType = false →
        ∃ spec, expandHorizontalPodAutoscalerV2Spec L inp = some (some spec, none)) := by
  unfold WellTyped at h
  unfold inputAbsent metricList expandHorizontalPodAutoscalerV2Spec
  cases hl : inp.toList with
  | nil => simp [errNullOrEmpty]
  | cons x rest =>
    simp only [hl] at h ⊢
    cases x with
    | nil => simp [Val.isNil, errNullOrEmpty]
    | map m =>
      simp only [Val.isNil, asMap, Bool.false_or, wtRecord, Bool.and_eq_true] at h
      obtain ⟨⟨h1, h2⟩, h3⟩ := h
      have e1 : ∃ s1 : HorizontalPodAutoscalerSpec Q S,
          (match GoMap.get m "max_replicas" with
            | some v => (asInt v).map fun n =>
                { ({} : HorizontalPodAutoscalerSpec Q S) with MaxReplicas := toInt32 n }
            | none => some {}) = some s1 := by
        cases hg : GoMap.get m "max_replicas" with
        | none => exact ⟨_, rfl⟩
        | some v =>
          simp only [hg] at h1
          obtain ⟨n, hn⟩ := Option.isSome_iff_exists.1 h1
          simp only [hn, Option.map_some']
          exact ⟨_, rfl⟩
      obtain ⟨s1, hs1⟩ := e1
      have e2 : ∀ s : HorizontalPodAutoscalerSpec Q S, ∃ s2 : HorizontalPodAutoscalerSpec Q S,
          (match GoMap.get m "scale_target_ref" with
            | some v => (asSlice v).bind fun sl =>
                (expandV2CrossVersionObjectReference sl).bind fun r =>
                  some { s with ScaleTargetRef := r }
            | none => some s) = some s2 := by
        intro s
        cases hg : GoMap.get m "scale_target_ref" with
        | none => exact ⟨_, rfl⟩
        | some v =>
          simp only [hg] at h2
          cases hsl : asSlice v with
          | none => simp [hsl] at h2
          | some sl =>
            simp only [hsl] at h2
            obtain ⟨r, hr⟩ := Option.isSome_iff_exists.1
              (expandV2CrossVersionObjectReference_isSome sl h2)
            simp only [hsl, hr, Option.some_bind]
            exact ⟨_, rfl⟩
      simp only [Val.isNil, asMap, Option.bind_eq_bind, Option.pure_def, Option.some_bind,
        Bool.false_eq_true, if_false, hs1]
      obtain ⟨s2, hs2⟩ := e2
        (match asInt (GoMap.index m "min_replicas") with
          | some v => if v > 0 then { s1 with MinReplicas := ptrToInt32 (toInt32 v) } else s1
          | none => s1)
      rw [hs2]
      simp only [Option.some_bind]
      have hna : ¬ (Val.map m :: rest = [] ∨ ∃ rest_1, Val.map m :: rest = Val.nil :: rest_1) := by
        simp
      cases hsl : asSlice (GoMap.index m "metric") with
      | none => simp [hna]
      | some v =>
        simp only [hsl] at h3
        have hall : ∀ w ∈ v.toList, wtMetric L w = true := by
          simpa [List.all_eq_true] using h3
        have := expandMetricsFrom_wellTyped L { s2 with Metrics := Slice.mk [] } v.toList hall
        refine ⟨fun habs => absurd habs hna, fun _ => this.1, fun _ => this.2⟩
    | _ => simp [Val.isNil, asMap] at h

end

section
variable {Q S : Type} (L : Lib Q S)

/-- C3, refuted as stated: on a record whose `max_replicas` is not an `int`, on a
list whose first element is not a map, on a metric identifier without a string
name and on an unparsable quantity string, `expandHorizontalPodAutoscalerV2Spec`
panics: it returns neither a spec nor an error. -/
theorem expand_panics_on_malformed_input :
    (expandHorizontalPodAutoscalerV2Spec sampleLib badMaxReplicas = none) ∧
      (expandHorizontalPodAutoscalerV2Spec sampleLib badElement = none) ∧
      (expandHorizontalPodAutoscalerV2Spec sampleLib badIdentifier = none) ∧
      (expandHorizontalPodAutoscalerV2Spec sampleLib badQuantity = none) :=
  ⟨rfl, rfl, rfl, rfl⟩

/-- C3, amended: on every well-typed input list (absent, empty, or with a first
element that is nil or a well-typed record) `expandHorizontalPodAutoscalerV2Spec`
returns: either a spec with a nil error, or a nil spec with one of its two
errors. -/
theorem expand_wellTyped_returns (inp : Slice Val) (h : WellTyped L inp = true) :
    (∃ spec, expandHorizontalPodAutoscalerV2Spec L inp = some (some spec, none)) ∨
      expandHorizontalPodAutoscalerV2Spec L inp = some (none, some errNullOrEmpty) ∨
      expandHorizontalPodAutoscalerV2Spec L inp = some (none, some errMalformedMetric) := by
  obtain ⟨h1, h2, h3⟩ := expand_wellTyped L inp h
  by_cases ha : inputAbsent inp
  · exact Or.inr (Or.inl (h1 ha))
  · cases hb : (metricList inp).any lacksStringType with
    | true => exact Or.inr (Or.inr (h2 ha hb))
    | false => exact Or.inl (h3 ha hb)

/-- The theorem `expand_wellTyped_returns` at the sample record, which is well
typed. -/
theorem expand_wellTyped_returns_witness :
    WellTyped sampleLib (Slice.mk [sampleObjectRecord]) = true ∧
      ((∃ spec, expandHorizontalPodAutoscalerV2Spec sampleLib (Slice.mk [sampleObjectRecord])
          = some (some spec, none)) ∨
        expandHorizontalPodAutoscalerV2Spec sampleLib (Slice.mk [sampleObjectRecord])
          = some (none, some errNullOrEmpty) ∨
        expandHorizontalPodAutoscalerV2Spec sampleLib (Slice.mk [sampleObjectRecord])
          = some (none, some errMalformedMetric)) :=
  ⟨rfl, expand_wellTyped_returns sampleLib (Slice.mk [sampleObjectRecord]) rfl⟩

/-- C6: on a well-typed input list, `expandHorizontalPodAutoscalerV2Spec` returns
an error exactly when the input is absent (no element, or a nil first element) or
some element of the `metric` list has no string `type`; the error is the "null or
empty input" error in the first case and the wrapped "metric must have a type"
error in the second, each with a nil spec; in every other case it returns a
non-nil spec and a nil error. -/
theorem expand_error_iff (inp : Slice Val) (h : WellTyped L inp = true) :
    ((∃ r e, expandHorizontalPodAutoscalerV2Spec L inp = some (r, some e)) ↔
        (inputAbsent inp ∨ ∃ v ∈ metricList inp, lacksStringType v = true)) ∧
      (inputAbsent inp →
        expandHorizontalPodAutoscalerV2Spec L inp = some (none, some errNullOrEmpty)) ∧
      (¬ inputAbsent inp → (∃ v ∈ metricList inp, lacksStringType v = true) →
        expandHorizontalPodAutoscalerV2Spec L inp = some (none, some errMalformedMetric)) ∧
      (¬ (inputAbsent inp ∨ ∃ v ∈ metricList inp, lacksStringType v = true) →
        ∃ spec, expandHorizontalPodAutoscalerV2Spec L inp = some (some spec, none)) := by
  obtain ⟨h1, h2, h3⟩ := expand_wellTyped L inp h
  have hany : (metricList inp).any lacksStringType = true ↔
      ∃ v ∈ metricList inp, lacksStringType v = true := by
    simp [List.any_eq_true]
  have hok : ¬ (inputAbsent inp ∨ ∃ v ∈ metricList inp, lacksStringType v = true) →
      ∃ spec, expandHorizontalPodAutoscalerV2Spec L inp = some (some spec, none) := by
    intro hn
    have ha : ¬ inputAbsent inp := fun ha => hn (Or.inl ha)
    have hb : (metricList inp).any lacksStringType = false := by
      cases hb : (metricList inp).any lacksStringType with
      | false => rfl
      | true => exact absurd (Or.inr (hany.1 hb)) hn
    exact h3 ha hb
  refine ⟨⟨?_, ?_⟩, h1, fun ha hb => h2 ha (hany.2 hb), hok⟩
  · rintro ⟨r, e, hre⟩
    by_contra hn
    obtain ⟨spec, hs⟩ := hok hn
    rw [hs] at hre
    cases hre
  · intro hc
    by_cases ha : inputAbsent inp
    · exact ⟨none, errNullOrEmpty, h1 ha⟩
    · rcases hc with hc | hc
      · exact absurd hc ha
      · exact ⟨none, errMalformedMetric, h2 ha (hany.2 hc)⟩

/-- The theorem `expand_error_iff` at a well-typed record whose second metric has
no `type`: the wrapped "metric must have a type" error is returned with a nil
spec. -/
theorem expand_error_iff_witness :
    WellTyped sampleLib secondMetricUntyped = true ∧
      expandHorizontalPodAutoscalerV2Spec sampleLib secondMetricUntyped
        = some (none, some errMalformedMetric) :=
  ⟨rfl, (expand_error_iff sampleLib secondMetricUntyped rfl).2.2.1
    (by simp [inputAbsent, secondMetricUntyped, Slice.toList])
    ⟨Val.map [("resource", Val.slice Slice.nil)],
      by simp [metricList, secondMetricUntyped, Slice.toList, asMap, asSlice, GoMap.index,
        GoMap.get],
      rfl⟩⟩

end

/-! ## What a successful expand returns -/

theorem asInt_eq_some (v : Val) (n : Int) : asInt v = some n ↔ v = Val.int n := by
  cases v <;> simp [asInt]

theorem asString_eq_some (v : Val) (s : String) : asString v = some s ↔ v = Val.str s := by
  cases v <;> simp [asString]

section
variable {Q S : Type} (L : Lib Q S)

theorem expandMetricsFrom_ok (spec out : HorizontalPodAutoscalerSpec Q S) (l : List Val)
    (pre : List (MetricSpec Q S)) (hpre : spec.Metrics = Slice.mk pre)
    (h : expandMetricsFrom L spec l = some (some out, none)) :
    out.MaxReplicas = spec.MaxReplicas ∧ out.MinReplicas = spec.MinReplicas ∧
      out.ScaleTargetRef = spec.ScaleTargetRef ∧
      ∃ ms, out.Metrics = Slice.mk (pre ++ ms) ∧
        List.Forall₂ (fun x s => ∃ mm, asMap x = some mm ∧
          expandV2MetricSpec L mm = some (s, none)) l ms := by
  induction l generalizing spec pre with
  | nil =>
    simp only [expandMetricsFrom, Option.some.injEq, Prod.mk.injEq, and_true] at h
    subst h
    exact ⟨rfl, rfl, rfl, [], by simp [hpre], List.Forall₂.nil⟩
  | cons v rest ih =>
    unfold expandMetricsFrom at h
    cases hv : asMap v with
    | none => simp [hv] at h
    | some mm =>
      cases hx : expandV2MetricSpec L mm with
      | none => simp [hv, hx] at h
      | some p =>
        obtain ⟨s0, err⟩ := p
        cases err with
        | some e0 => simp [hv, hx] at h
        | none =>
          simp only [hv, hx, Option.bind_eq_bind, Option.some_bind] at h
          obtain ⟨h1, h2, h3, ms, h4, h5⟩ := ih _ (pre ++ [s0])
            (by simp [Slice.append, Slice.toList, hpre]) h
          refine ⟨h1, h2, h3, s0 :: ms, ?_, List.Forall₂.cons ⟨mm, hv, hx⟩ h5⟩
          rw [h4]
          simp

theorem expandHPA_ok_shape (inp : Slice Val) (spec : HorizontalPodAutoscalerSpec Q S)
    (h : expandHorizontalPodAutoscalerV2Spec L inp = some (some spec, none)) :
    ∃ m rest, inp = Slice.mk (Val.map m :: rest) := by
  cases inp with
  | nil => simp [expandHorizontalPodAutoscalerV2Spec, Slice.toList] at h
  | mk xs =>
    cases xs with
    | nil => simp [expandHorizontalPodAutoscalerV2Spec, Slice.toList] at h
    | cons x rest =>
      cases x with
      | map m => exact ⟨m, rest, rfl⟩
      | _ => simp [expandHorizontalPodAutoscalerV2Spec, Slice.toList, Val.isNil, asMap] at h

theorem expandHPA_ok (m : GoMap) (rest : List Val) (spec : HorizontalPodAutoscalerSpec Q S)
    (h : expandHorizontalPodAutoscalerV2Spec L (Slice.mk (Val.map m :: rest))
      = some (some spec, none)) :
    ((∀ v, GoMap.get m "max_replicas" = some v →
        ∃ n, v = Val.int n ∧ spec.MaxReplicas = toInt32 n) ∧
      (GoMap.get m "max_replicas" = none → spec.MaxReplicas = 0)) ∧
    spec.MinReplicas =
      (match asInt (GoMap.index m "min_replicas") with
        | some v => if v > 0 then some (toInt32 v) else none
        | none => none) ∧
    (∀ v, asSlice (GoMap.index m "metric") = some v →
      ∃ ms, spec.Metrics = Slice.mk ms ∧
        List.Forall₂ (fun x s => ∃ mm, asMap x = some mm ∧
          expandV2MetricSpec L mm = some (s, none)) v.toList ms) ∧
    (asSlice (GoMap.index m "metric") = none → spec.Metrics = Slice.nil) := by
  unfold expandHorizontalPodAutoscalerV2Spec at h
  simp only [Slice.toList, Val.isNil, asMap, Option.bind_eq_bind, Option.some_bind,
    Option.bind_eq_some, Bool.false_eq_true, if_false] at h
  obtain ⟨a, ha, b, hb, h⟩ := h
  have ha2 : ((∀ v, GoMap.get m "max_replicas" = some v →
        ∃ n, v = Val.int n ∧ a.MaxReplicas = toInt32 n) ∧
      (GoMap.get m "max_replicas" = none → a.MaxReplicas = 0)) ∧
      a.MinReplicas = none ∧ a.Metrics = Slice.nil := by
    cases hg : GoMap.get m "max_replicas" with
    | none =>
      simp only [hg, Option.some.injEq] at ha
      subst ha
      simp
    | some v =>
      simp only [hg] at ha
      cases v <;> simp [asInt] at ha
      subst ha
      simp
  generalize hc : (match asInt (GoMap.index m "min_replicas") with
    | some v =>
      if v > 0 then
        ({ a with MinReplicas := ptrToInt32 (toInt32 v) } : HorizontalPodAutoscalerSpec Q S)
      else a
    | none => a) = c at hb
  have hc2 : c.MaxReplicas = a.MaxReplicas ∧ c.MinReplicas =
      (match asInt (GoMap.index m "min_replicas") with
        | some v => if v > 0 then some (toInt32 v) else none
        | none => none) ∧ c.Metrics = a.Metrics := by
    subst hc
    cases hi : asInt (GoMap.index m "min_replicas") with
    | none => simp [ha2.2.1]
    | some v =>
      by_cases hv : v > 0
      · simp [hv, ptrToInt32]
      · simp [hv, ha2.2.1]
  have hb2 : b.MaxReplicas = c.MaxReplicas ∧ b.MinReplicas = c.MinReplicas ∧
      b.Metrics = c.Metrics := by
    cases hg : GoMap.get m "scale_target_ref" with
    | none =>
      simp only [hg, Option.some.injEq] at hb
      subst hb
      exact ⟨rfl, rfl, rfl⟩
    | some v =>
      simp only [hg, Option.bind_eq_some, Option.pure_def, Option.some.injEq] at hb
      obtain ⟨_, _, _, _, rfl⟩ := hb
      exact ⟨rfl, rfl, rfl⟩
  have hfin : spec.MaxReplicas = b.MaxReplicas ∧ spec.MinReplicas = b.MinReplicas ∧
      (∀ v, asSlice (GoMap.index m "metric") = some v →
        ∃ ms, spec.Metrics = Slice.mk ms ∧
          List.Forall₂ (fun x s => ∃ mm, asMap x = some mm ∧
            expandV2MetricSpec L mm = some (s, none)) v.toList ms) ∧
      (asSlice (GoMap.index m "metric") = none → spec.Metrics = b.Metrics) := by
    cases hs : asSlice (GoMap.index m "metric") with
    | none =>
      simp only [hs, Option.some.injEq, Prod.mk.injEq, and_true] at h
      subst h
      simp
    | some v =>
      simp only [hs] at h
      obtain ⟨h1, h2, _, ms, h4, h5⟩ := expandMetricsFrom_ok L _ spec v.toList [] rfl h
      refine ⟨h1, h2, ?_, by simp⟩
      intro w hw
      cases hw
      exact ⟨ms, by simpa using h4, h5⟩
  obtain ⟨⟨a1, a2⟩, a3, a4⟩ := ha2
  obtain ⟨c1, c2, c3⟩ := hc2
  obtain ⟨b1, b2, b3⟩ := hb2
  obtain ⟨f1, f2, f3, f4⟩ := hfin
  refine ⟨⟨?_, ?_⟩, ?_, f3, ?_⟩
  · intro v hv
    obtain ⟨n, hn, hmax⟩ := a1 v hv
    exact ⟨n, hn, by rw [f1, b1, c1, hmax]⟩
  · intro hv
    rw [f1, b1, c1, a2 hv]
  · rw [f2, b2, c2]
  · intro hs
    rw [f4 hs, b3, c3, a4]

end

section
variable {Q S : Type} (L : Lib Q S)

theorem toInt32_of_inRange (n : Int) (h0 : 0 ≤ n) (h1 : n < 2147483648) : toInt32 n = n := by
  unfold toInt32
  omega

theorem patch_eq_of_intWhenChanged (pfx pathPfx : String) (d : ResourceData)
    (h : intWhenChanged pfx d) :
    patchHorizontalPodAutoscalerV2Spec pfx pathPfx d
      = some (Slice.mk (expectedPatch pfx pathPfx d)) := by
  obtain ⟨h1, h2⟩ := h
  unfold patchHorizontalPodAutoscalerV2Spec expectedPatch
  cases c1 : d.HasChange (pfx ++ "max_replicas") <;>
    cases c2 : d.HasChange (pfx ++ "min_replicas")
  · simp
  · obtain ⟨b, hb⟩ := h2 c2
    simp [hb, asInt, Slice.append, Slice.toList]
  · obtain ⟨a, ha⟩ := h1 c1
    simp [ha, asInt, Slice.append, Slice.toList]
  · obtain ⟨a, ha⟩ := h1 c1
    obtain ⟨b, hb⟩ := h2 c2
    simp [ha, hb, asInt, Slice.append, Slice.toList]

theorem intWhenChanged_of_patch_isSome (pfx pathPfx : String) (d : ResourceData)
    (h : (patchHorizontalPodAutoscalerV2Spec pfx pathPfx d).isSome = true) :
    intWhenChanged pfx d := by
  unfold patchHorizontalPodAutoscalerV2Spec at h
  constructor
  · intro c1
    cases ha : asInt (d.Get (pfx ++ "max_replicas")) with
    | none => simp [c1, ha] at h
    | some a => exact ⟨a, (asInt_eq_some _ _).1 ha⟩
  · intro c2
    cases hb : asInt (d.Get (pfx ++ "min_replicas")) with
    | none =>
      cases c1 : d.HasChange (pfx ++ "max_replicas") with
      | false => simp [c1, c2, hb] at h
      | true =>
        cases ha : asInt (d.Get (pfx ++ "max_replicas")) <;> simp [c1, c2, ha, hb] at h
    | some b => exact ⟨b, (asInt_eq_some _ _).1 hb⟩

/-- C11: for every resource state, the patch generator returns exactly when the
changed replica fields hold `int`s, and the list it returns is exactly the list the
spec describes: the replace operation on `pathPfx + "/maxReplicas"` if
`max_replicas` changed, followed by the replace operation on
`pathPfx + "/minReplicas"` if `min_replicas` changed. That list is never nil, its
length is the number of changed fields among the two, it is empty when neither
changed, the max operation comes first when both changed, and the patch depends on
nothing but the change flags and values of the two fields. -/
theorem patch_is_expectedPatch (pfx pathPfx : String) (d : ResourceData) :
    ((patchHorizontalPodAutoscalerV2Spec pfx pathPfx d).isSome = true ↔
        intWhenChanged pfx d) ∧
      (∀ ops, patchHorizontalPodAutoscalerV2Spec pfx pathPfx d = some ops →
        ops = Slice.mk (expectedPatch pfx pathPfx d) ∧ ops ≠ Slice.nil) ∧
      (expectedPatch pfx pathPfx d).length = changedCount pfx d ∧
      (d.HasChange (pfx ++ "max_replicas") = false →
        d.HasChange (pfx ++ "min_replicas") = false →
        patchHorizontalPodAutoscalerV2Spec pfx pathPfx d = some (Slice.mk [])) ∧
      (d.HasChange (pfx ++ "max_replicas") = true →
        d.HasChange (pfx ++ "min_replicas") = true →
        expectedPatch pfx pathPfx d =
          [PatchOperation.Replace ⟨pathPfx ++ "/maxReplicas", d.Get (pfx ++ "max_replicas")⟩,
           PatchOperation.Replace ⟨pathPfx ++ "/minReplicas", d.Get (pfx ++ "min_replicas")⟩]) ∧
      (∀ d2 : ResourceData,
        d2.HasChange (pfx ++ "max_replicas") = d.HasChange (pfx ++ "max_replicas") →
        d2.HasChange (pfx ++ "min_replicas") = d.HasChange (pfx ++ "min_replicas") →
        d2.Get (pfx ++ "max_replicas") = d.Get (pfx ++ "max_replicas") →
        d2.Get (pfx ++ "min_replicas") = d.Get (pfx ++ "min_replicas") →
        patchHorizontalPodAutoscalerV2Spec pfx pathPfx d2
          = patchHorizontalPodAutoscalerV2Spec pfx pathPfx d) := by
  refine ⟨⟨intWhenChanged_of_patch_isSome pfx pathPfx d, fun h => ?_⟩, ?_, ?_, ?_, ?_, ?_⟩
  · rw [patch_eq_of_intWhenChanged pfx pathPfx d h]
    rfl
  · intro ops hops
    have hw := intWhenChanged_of_patch_isSome pfx pathPfx d (by rw [hops]; rfl)
    rw [patch_eq_of_intWhenChanged pfx pathPfx d hw] at hops
    simp only [Option.some.injEq] at hops
    subst hops
    exact ⟨rfl, by simp⟩
  · unfold expectedPatch changedCount
    cases c1 : d.HasChange (pfx ++ "max_replicas") <;>
      cases c2 : d.HasChange (pfx ++ "min_replicas") <;> simp
  · intro c1 c2
    simp [patchHorizontalPodAutoscalerV2Spec, c1, c2]
  · intro c1 c2
    simp [expectedPatch, c1, c2]
  · intro d2 e1 e2 e3 e4
    unfold patchHorizontalPodAutoscalerV2Spec
    rw [e1, e2, e3, e4]

/-- The theorem `patch_is_expectedPatch` at a resource state in which
`max_replicas` changed to `5`, `min_replicas` changed to `2` and the `metric` list
changed as well: the patch is the max operation followed by the min operation. -/
theorem patch_is_expectedPatch_witness :
    patchHorizontalPodAutoscalerV2Spec "spec.0." "/spec" sampleBothChanged =
      some (Slice.mk
        [PatchOperation.Replace ⟨"/spec/maxReplicas", Val.int 5⟩,
         PatchOperation.Replace ⟨"/spec/minReplicas", Val.int 2⟩]) := by
  have hs : (patchHorizontalPodAutoscalerV2Spec "spec.0." "/spec" sampleBothChanged).isSome
      = true := rfl
  obtain ⟨ops, hops⟩ := Option.isSome_iff_exists.1 hs
  have h := ((patch_is_expectedPatch "spec.0." "/spec" sampleBothChanged).2.1 ops hops).1
  rw [hops, h]
  rfl

/-- C13, refuted as stated: expand succeeds on a record whose `max_replicas` is
`-1` with `MaxReplicas = -1`, and on a record whose `min_replicas` is `2^31` with
`MinReplicas` pointing to `-2^31`. -/
theorem expand_negative_replica_bounds :
    (∃ spec : HorizontalPodAutoscalerSpec String (Slice Val),
        expandHorizontalPodAutoscalerV2Spec sampleLib negativeMaxReplicas
          = some (some spec, none) ∧ spec.MaxReplicas = -1 ∧ spec.MaxReplicas < 0) ∧
      (∃ spec : HorizontalPodAutoscalerSpec String (Slice Val),
        expandHorizontalPodAutoscalerV2Spec sampleLib hugeMinReplicas
          = some (some spec, none) ∧ spec.MinReplicas = some (-2147483648)) :=
  ⟨⟨_, rfl, by decide, by decide⟩, ⟨_, rfl, by decide⟩⟩

/-- C13, amended: on every record on which expand succeeds, `MaxReplicas` is `0`
when `max_replicas` is absent and is the 32-bit wrap-around of the integer
`max_replicas` otherwise, so it is that integer, and non-negative, when
`0 ≤ max_replicas < 2^31`; and `MinReplicas`, when present, is the wrap-around of
an integer `min_replicas > 0`, so it is that integer, and positive, when
`min_replicas < 2^31`. -/
theorem expand_replica_bounds (inp : Slice Val) (spec : HorizontalPodAutoscalerSpec Q S)
    (h : expandHorizontalPodAutoscalerV2Spec L inp = some (some spec, none)) :
    ∃ m rest, inp = Slice.mk (Val.map m :: rest) ∧
      (GoMap.get m "max_replicas" = none → spec.MaxReplicas = 0) ∧
      (∀ v, GoMap.get m "max_replicas" = some v →
        ∃ n, v = Val.int n ∧ spec.MaxReplicas = toInt32 n ∧
          (0 ≤ n → n < 2147483648 → spec.MaxReplicas = n ∧ 0 ≤ spec.MaxReplicas)) ∧
      (∀ k, spec.MinReplicas = some k →
        ∃ v, GoMap.index m "min_replicas" = Val.int v ∧ 0 < v ∧ k = toInt32 v ∧
          (v < 2147483648 → k = v ∧ 0 < k)) := by
  obtain ⟨m, rest, hin⟩ := expandHPA_ok_shape L inp spec h
  subst hin
  obtain ⟨⟨h1, h2⟩, h3, _, _⟩ := expandHPA_ok L m rest spec h
  refine ⟨m, rest, rfl, h2, ?_, ?_⟩
  · intro v hv
    obtain ⟨n, hn, hmax⟩ := h1 v hv
    refine ⟨n, hn, hmax, ?_⟩
    intro h0 hlt
    rw [hmax, toInt32_of_inRange n h0 hlt]
    exact ⟨rfl, h0⟩
  · intro k hk
    rw [h3] at hk
    cases hi : asInt (GoMap.index m "min_replicas") with
    | none => simp [hi] at hk
    | some v =>
      simp only [hi] at hk
      have hidx : GoMap.index m "min_replicas" = Val.int v := by
        cases hx : GoMap.index m "min_replicas" <;> simp [hx, asInt] at hi
        rw [hi]
      by_cases hv : v > 0
      · simp only [hv, if_true, Option.some.injEq] at hk
        refine ⟨v, hidx, hv, hk.symm, ?_⟩
        intro hlt
        rw [← hk, toInt32_of_inRange v (le_of_lt hv) hlt]
        exact ⟨rfl, hv⟩
      · simp [hv] at hk

/-- The theorem `expand_replica_bounds` at the sample record: `max_replicas = 5`
gives `MaxReplicas = 5`. -/
theorem expand_replica_bounds_witness :
    ∃ spec : HorizontalPodAutoscalerSpec String (Slice Val),
      expandHorizontalPodAutoscalerV2Spec sampleLib (Slice.mk [sampleObjectRecord])
        = some (some spec, none) ∧
      ∃ m rest, Slice.mk [sampleObjectRecord] = Slice.mk (Val.map m :: rest) ∧
        (GoMap.get m "max_replicas" = none → spec.MaxReplicas = 0) ∧
        (∀ v, GoMap.get m "max_replicas" = some v →
          ∃ n, v = Val.int n ∧ spec.MaxReplicas = toInt32 n ∧
            (0 ≤ n → n < 2147483648 → spec.MaxReplicas = n ∧ 0 ≤ spec.MaxReplicas)) ∧
        (∀ k, spec.MinReplicas = some k →
          ∃ v, GoMap.index m "min_replicas" = Val.int v ∧ 0 < v ∧ k = toInt32 v ∧
            (v < 2147483648 → k = v ∧ 0 < k)) :=
  ⟨_, rfl, expand_replica_bounds sampleLib (Slice.mk [sampleObjectRecord]) _ rfl⟩

/-- C16: expanding the flattening of any object reference gives the reference
back, and the flattened map holds `api_version`, `kind` and `name` exactly for the
non-empty fields, each with the field as its string. -/
theorem crossVersionObjectReference_roundTrip (r : CrossVersionObjectReference) :
    expandV2CrossVersionObjectReference (flattenV2CrossVersionObjectReference r) = some r ∧
      ∃ m, flattenV2CrossVersionObjectReference r = Slice.mk [Val.map m] ∧
        GoMap.get m "api_version"
          = (if r.APIVersion = "" then none else some (Val.str r.APIVersion)) ∧
        GoMap.get m "kind" = (if r.Kind = "" then none else some (Val.str r.Kind)) ∧
        GoMap.get m "name" = (if r.Name = "" then none else some (Val.str r.Name)) ∧
        ((GoMap.get m "api_version").isSome = true ↔ r.APIVersion ≠ "") ∧
        ((GoMap.get m "kind").isSome = true ↔ r.Kind ≠ "") ∧
        ((GoMap.get m "name").isSome = true ↔ r.Name ≠ "") := by
  obtain ⟨k, n, a⟩ := r
  by_cases ha : a = "" <;> by_cases hk : k = "" <;> by_cases hn : n = "" <;>
    simp [flattenV2CrossVersionObjectReference, expandV2CrossVersionObjectReference,
      GoMap.set, GoMap.get, Slice.toList, Val.isNil, asMap, asString, ha, hk, hn]

end

section
variable {Q S : Type} (L : Lib Q S)

theorem flattenMetricsFrom_ok (pre : List Val) (ms : List (MetricSpec Q S)) (out : Slice Val)
    (h : flattenMetricsFrom L (Slice.mk pre) ms = some out) :
    ∃ fms, out = Slice.mk (pre ++ fms.map Val.map) ∧
      List.Forall₂ (fun x fm => flattenV2MetricSpec L x = some fm) ms fms := by
  induction ms generalizing pre with
  | nil =>
    simp only [flattenMetricsFrom, Option.some.injEq] at h
    exact ⟨[], by simp [← h], List.Forall₂.nil⟩
  | cons x rest ih =>
    unfold flattenMetricsFrom at h
    cases hx : flattenV2MetricSpec L x with
    | none => simp [hx] at h
    | some fm =>
      simp only [hx, Option.bind_eq_bind, Option.some_bind, Slice.append, Slice.toList] at h
      obtain ⟨fms, h1, h2⟩ := ih (pre ++ [Val.map fm]) h
      exact ⟨fm :: fms, by simp [h1], List.Forall₂.cons hx h2⟩

/-- C18: `flattenHorizontalPodAutoscalerV2Spec` returns exactly when every metric
of the spec flattens, and what it returns is a one-element list whose map holds
`max_replicas`, `scale_target_ref` and `metric`; the `metric` entry is a non-nil
list with one element per metric of the spec, the i-th being the map returned by
`flattenV2MetricSpec` for the i-th metric (the empty list when the spec has no
metrics). -/
theorem flatten_preserves_metrics (spec : HorizontalPodAutoscalerSpec Q S) :
    ((flattenHorizontalPodAutoscalerV2Spec L spec).isSome = true ↔
        ∀ x ∈ spec.Metrics.toList, (flattenV2MetricSpec L x).isSome = true) ∧
      ∀ out, flattenHorizontalPodAutoscalerV2Spec L spec = some out →
        ∃ (m : GoMap) (fms : List GoMap), out = Slice.mk [Val.map m] ∧
          GoMap.get m "max_replicas" = some (Val.int32 spec.MaxReplicas) ∧
          GoMap.get m "scale_target_ref"
            = some (Val.slice (flattenV2CrossVersionObjectReference spec.ScaleTargetRef)) ∧
          GoMap.get m "metric" = some (Val.slice (Slice.mk (fms.map Val.map))) ∧
          fms.length = spec.Metrics.toList.length ∧
          (∀ i (h1 : i < spec.Metrics.toList.length) (h2 : i < fms.length),
            flattenV2MetricSpec L (spec.Metrics.toList.get ⟨i, h1⟩) = some (fms.get ⟨i, h2⟩)) ∧
          (spec.Metrics.toList = [] → GoMap.get m "metric" = some (Val.slice (Slice.mk []))) := by
  constructor
  · rw [← flattenMetricsFrom_isSome_iff L (Slice.mk []) spec.Metrics.toList]
    unfold flattenHorizontalPodAutoscalerV2Spec
    cases hf : flattenMetricsFrom L (Slice.mk []) spec.Metrics.toList <;> simp [hf]
  · intro out hout
    unfold flattenHorizontalPodAutoscalerV2Spec at hout
    cases hf : flattenMetricsFrom L (Slice.mk []) spec.Metrics.toList with
    | none => simp [hf] at hout
    | some ms =>
      obtain ⟨fms, h1, h2⟩ := flattenMetricsFrom_ok L [] spec.Metrics.toList ms hf
      simp only [hf, Option.bind_eq_bind, Option.some_bind, Option.pure_def,
        Option.some.injEq] at hout
      subst hout
      subst h1
      obtain ⟨hlen, hget⟩ := List.forall₂_iff_get.1 h2
      refine ⟨_, fms, rfl, ?_, ?_, ?_, hlen.symm, hget, ?_⟩
      · cases hmin : spec.MinReplicas <;> simp [GoMap.get_set, GoMap.get]
      · cases hmin : spec.MinReplicas <;> simp [GoMap.get_set, GoMap.get]
      · cases hmin : spec.MinReplicas <;> simp [GoMap.get_set, GoMap.get]
      · intro hnil
        have : fms = [] := by
          rw [hnil] at hlen
          exact List.length_eq_zero.1 hlen.symm
        subst this
        cases hmin : spec.MinReplicas <;> simp [GoMap.get_set, GoMap.get]

/-- C19: on every input on which expand succeeds, the first element is a map; when
its `metric` entry is a list, `Metrics` is a non-nil slice of the same length whose
i-th element is the metric spec that `expandV2MetricSpec` returns, without error,
for the i-th element of the list; when the `metric` key is absent (or does not
hold a list), `Metrics` is left nil. -/
theorem expand_preserves_metrics (inp : Slice Val) (spec : HorizontalPodAutoscalerSpec Q S)
    (h : expandHorizontalPodAutoscalerV2Spec L inp = some (some spec, none)) :
    ∃ m rest, inp = Slice.mk (Val.map m :: rest) ∧
      (∀ v, asSlice (GoMap.index m "metric") = some v →
        ∃ ms, spec.Metrics = Slice.mk ms ∧ ms.length = v.toList.length ∧
          ∀ i (h1 : i < v.toList.length) (h2 : i < ms.length),
            ∃ mm, asMap (v.toList.get ⟨i, h1⟩) = some mm ∧
              expandV2MetricSpec L mm = some (ms.get ⟨i, h2⟩, none)) ∧
      (GoMap.get m "metric" = none → spec.Metrics = Slice.nil) ∧
      (asSlice (GoMap.index m "metric") = none → spec.Metrics = Slice.nil) := by
  obtain ⟨m, rest, hin⟩ := expandHPA_ok_shape L inp spec h
  subst hin
  obtain ⟨_, _, h3, h4⟩ := expandHPA_ok L m rest spec h
  refine ⟨m, rest, rfl, ?_, ?_, h4⟩
  · intro v hv
    obtain ⟨ms, hms, hall⟩ := h3 v hv
    obtain ⟨hlen, hget⟩ := List.forall₂_iff_get.1 hall
    exact ⟨ms, hms, hlen.symm, hget⟩
  · intro hg
    apply h4
    simp [GoMap.index, hg, asSlice]

end

section
variable {Q S : Type} (L : Lib Q S)

theorem sourceStep_eq {A : Type} (m : GoMap) (k : String) (ex : GoMap → Option A)
    (upd : A → MetricSpec Q S) (spec out : MetricSpec Q S)
    (h : (match lenOne (GoMap.index m k) with
      | some (_, e) => (asMap e).bind fun sm => (ex sm).bind fun r => some (upd r)
      | none => some spec) = some out) :
    ((lenOne (GoMap.index m k)).isSome = true ∧ ∃ r, out = upd r) ∨
      ((lenOne (GoMap.index m k)).isSome = false ∧ out = spec) := by
  cases hl : lenOne (GoMap.index m k) with
  | none =>
    simp only [hl, Option.some.injEq] at h
    exact Or.inr ⟨rfl, h.symm⟩
  | some p =>
    obtain ⟨v, e⟩ := p
    simp only [hl, Option.bind_eq_some, Option.some.injEq] at h
    obtain ⟨_, _, r, _, hr⟩ := h
    exact Or.inl ⟨rfl, r, hr.symm⟩

/-- C12, refuted as stated: on a metric map that carries a one-element list under
`resource` and under `pods`, `expandV2MetricSpec` succeeds and populates both the
resource and the pods source. -/
theorem expandV2MetricSpec_two_sources :
    ∃ s : MetricSpec String (Slice Val),
      expandV2MetricSpec sampleLib twoSourcesMetric = some (s, none) ∧
      s.Resource.isSome = true ∧ s.Pods.isSome = true ∧ populatedSources s = 2 :=
  ⟨_, rfl, rfl, rfl, rfl⟩

/-- C12, amended: when `expandV2MetricSpec` succeeds, each of `Resource`,
`External`, `Pods` and `Object` is non-nil exactly when the map carries a
one-element list under the key of that source; so the number of populated sources
is the number of such keys, and at most one source is populated when at most one
of the four keys carries a one-element list. -/
theorem expandV2MetricSpec_sources (m : GoMap) (s : MetricSpec Q S)
    (h : expandV2MetricSpec L m = some (s, none)) :
    s.Resource.isSome = (lenOne (GoMap.index m "resource")).isSome ∧
      s.External.isSome = (lenOne (GoMap.index m "external")).isSome ∧
      s.Pods.isSome = (lenOne (GoMap.index m "pods")).isSome ∧
      s.Object.isSome = (lenOne (GoMap.index m "object")).isSome ∧
      populatedSources s = oneElementKeys m ∧
      (oneElementKeys m ≤ 1 → populatedSources s ≤ 1) := by
  have hfields : s.Resource.isSome = (lenOne (GoMap.index m "resource")).isSome ∧
      s.External.isSome = (lenOne (GoMap.index m "external")).isSome ∧
      s.Pods.isSome = (lenOne (GoMap.index m "pods")).isSome ∧
      s.Object.isSome = (lenOne (GoMap.index m "object")).isSome := by
    unfold expandV2MetricSpec at h
    cases ht : asString (GoMap.index m "type") with
    | none => simp [ht] at h
    | some t =>
      simp only [ht, Option.bind_eq_bind, Option.pure_def] at h
      obtain ⟨a, h1, h⟩ := Option.bind_eq_some.1 h
      obtain ⟨b, h2, h⟩ := Option.bind_eq_some.1 h
      obtain ⟨c, h3, h⟩ := Option.bind_eq_some.1 h
      obtain ⟨d, h4, h⟩ := Option.bind_eq_some.1 h
      simp only [Option.some.injEq, Prod.mk.injEq, and_true] at h
      subst h
      have s1 := sourceStep_eq m "resource" (expandV2ResourceMetricSource L)
        (fun r => { ({ ({} : MetricSpec Q S) with Type_ := t }) with Resource := some r })
        _ a h1
      have s2 := sourceStep_eq m "external" (expandV2ExternalMetricSource L)
        (fun r => { a with External := some r }) a b h2
      have s3 := sourceStep_eq m "pods" (expandV2PodsMetricSource L)
        (fun r => { b with Pods := some r }) b c h3
      have s4 := sourceStep_eq m "object" (expandV2ObjectMetricSource L)
        (fun r => { c with Object := some r }) c d h4
      rcases s1 with ⟨e1, r1, rfl⟩ | ⟨e1, rfl⟩ <;>
        rcases s2 with ⟨e2, r2, rfl⟩ | ⟨e2, rfl⟩ <;>
        rcases s3 with ⟨e3, r3, rfl⟩ | ⟨e3, rfl⟩ <;>
        rcases s4 with ⟨e4, r4, rfl⟩ | ⟨e4, rfl⟩ <;>
        simp [e1, e2, e3, e4]
  obtain ⟨f1, f2, f3, f4⟩ := hfields
  have hcount : populatedSources s = oneElementKeys m := by
    unfold populatedSources oneElementKeys
    rw [f1, f2, f3, f4]
  exact ⟨f1, f2, f3, f4, hcount, fun hle => by rw [hcount]; exact hle⟩

/-- The theorem `expandV2MetricSpec_sources` at the sample object metric, which
carries a one-element list under `object` only: exactly the object source is
populated. -/
theorem expandV2MetricSpec_sources_witness :
    ∃ s : MetricSpec String (Slice Val),
      expandV2MetricSpec sampleLib sampleObjectMetric = some (s, none) ∧
      oneElementKeys sampleObjectMetric = 1 ∧ populatedSources s ≤ 1 ∧
      s.Object.isSome = true := by
  have hx : ∃ s : MetricSpec String (Slice Val),
      expandV2MetricSpec sampleLib sampleObjectMetric = some (s, none) := ⟨_, rfl⟩
  obtain ⟨s, hs⟩ := hx
  have hk : oneElementKeys sampleObjectMetric = 1 := by decide
  obtain ⟨_, _, _, h4, _, h6⟩ := expandV2MetricSpec_sources sampleLib sampleObjectMetric s hs
  exact ⟨s, hs, hk, h6 (le_of_eq hk), by rw [h4]; rfl⟩

end

section
variable {Q S : Type} (L : Lib Q S)

theorem quantityStep_eq (m : GoMap) (k : String) (pre out : MetricTarget Q)
    (f : MetricTarget Q → Q → MetricTarget Q)
    (h : (match asString (GoMap.index m k) with
      | some v => if v ≠ "" then (L.MustParse v).map fun q => f pre q else some pre
      | none => some pre) = some out) :
    ((∃ s, GoMap.index m k = Val.str s ∧ s ≠ "") ∧ ∃ q, out = f pre q) ∨
      ((¬ ∃ s, GoMap.index m k = Val.str s ∧ s ≠ "") ∧ out = pre) := by
  cases hs : asString (GoMap.index m k) with
  | none =>
    simp only [hs, Option.some.injEq] at h
    refine Or.inr ⟨?_, h.symm⟩
    rintro ⟨s, h1, _⟩
    rw [h1] at hs
    simp [asString] at hs
  | some v =>
    have hv := (asString_eq_some _ _).1 hs
    simp only [hs] at h
    by_cases he : v = ""
    · simp only [he, ne_eq, not_true_eq_false, if_false, Option.some.injEq] at h
      refine Or.inr ⟨?_, h.symm⟩
      rintro ⟨s, h1, h2⟩
      rw [hv] at h1
      cases h1
      exact h2 he
    · simp only [ne_eq, he, not_false_eq_true, if_true, Option.map_eq_some'] at h
      obtain ⟨q, _, hq⟩ := h
      exact Or.inl ⟨⟨v, hv, he⟩, q, hq.symm⟩

theorem expandV2MetricTarget_fields (tm : GoMap) (t : MetricTarget Q)
    (h : expandV2MetricTarget L tm = some t) :
    (t.AverageUtilization.isSome = true ↔
        ∃ v, GoMap.index tm "average_utilization" = Val.int v ∧ 0 < v) ∧
      (t.AverageValue.isSome = true ↔
        ∃ s, GoMap.index tm "average_value" = Val.str s ∧ s ≠ "") ∧
      (t.Value.isSome = true ↔ ∃ s, GoMap.index tm "value" = Val.str s ∧ s ≠ "") := by
  unfold expandV2MetricTarget at h
  simp only [Option.bind_eq_bind, Option.pure_def] at h
  obtain ⟨t1, h1, h⟩ := Option.bind_eq_some.1 h
  obtain ⟨t2, h2, h⟩ := Option.bind_eq_some.1 h
  simp only [Option.some.injEq] at h
  subst h
  have hu : ∀ x : MetricTarget Q,
      ((match asInt (GoMap.index tm "average_utilization") with
        | some v =>
          if v > 0 then { x with AverageUtilization := ptrToInt32 (toInt32 v) } else x
        | none => x).AverageUtilization.isSome = true ↔
        (x.AverageUtilization.isSome = true ∨
          ∃ v, GoMap.index tm "average_utilization" = Val.int v ∧ 0 < v)) ∧
      (match asInt (GoMap.index tm "average_utilization") with
        | some v =>
          if v > 0 then { x with AverageUtilization := ptrToInt32 (toInt32 v) } else x
        | none => x).AverageValue = x.AverageValue ∧
      (match asInt (GoMap.index tm "average_utilization") with
        | some v =>
          if v > 0 then { x with AverageUtilization := ptrToInt32 (toInt32 v) } else x
        | none => x).Value = x.Value := by
    intro x
    cases hi : asInt (GoMap.index tm "average_utilization") with
    | none =>
      have : ¬ ∃ v, GoMap.index tm "average_utilization" = Val.int v ∧ 0 < v := by
        rintro ⟨v, hv, _⟩
        rw [hv] at hi
        simp [asInt] at hi
      simp [this]
    | some v =>
      have hv := (asInt_eq_some _ _).1 hi
      by_cases hp : v > 0
      · have : ∃ w, GoMap.index tm "average_utilization" = Val.int w ∧ 0 < w := ⟨v, hv, hp⟩
        simp [hp, ptrToInt32, this]
      · have : ¬ ∃ w, GoMap.index tm "average_utilization" = Val.int w ∧ 0 < w := by
          rintro ⟨w, hw, hw2⟩
          rw [hv] at hw
          cases hw
          exact hp hw2
        simp [hp, this]
  let x0 : MetricTarget Q :=
    match asString (GoMap.index tm "type") with
    | some v => { ({} : MetricTarget Q) with Type_ := v }
    | none => {}
  let p : MetricTarget Q :=
    match asInt (GoMap.index tm "average_utilization") with
    | some v => if v > 0 then { x0 with AverageUtilization := ptrToInt32 (toInt32 v) } else x0
    | none => x0
  have hx0 : x0.AverageUtilization = none ∧ x0.AverageValue = none ∧ x0.Value = none := by
    show (match asString (GoMap.index tm "type") with
      | some v => { ({} : MetricTarget Q) with Type_ := v }
      | none => {}).AverageUtilization = none ∧
      (match asString (GoMap.index tm "type") with
      | some v => { ({} : MetricTarget Q) with Type_ := v }
      | none => {}).AverageValue = none ∧
      (match asString (GoMap.index tm "type") with
      | some v => { ({} : MetricTarget Q) with Type_ := v }
      | none => {}).Value = none
    cases asString (GoMap.index tm "type") <;> exact ⟨rfl, rfl, rfl⟩
  have hp : (p.AverageUtilization.isSome = true ↔
        (x0.AverageUtilization.isSome = true ∨
          ∃ v, GoMap.index tm "average_utilization" = Val.int v ∧ 0 < v)) ∧
      p.AverageValue = x0.AverageValue ∧ p.Value = x0.Value := hu x0
  have s1 := quantityStep_eq L tm "average_value" p t1
    (fun t q => { t with AverageValue := some q }) h1
  have s2 := quantityStep_eq L tm "value" t1 t2
    (fun t q => { t with Value := some q }) h2
  obtain ⟨hx1, hx2, hx3⟩ := hx0
  obtain ⟨hp1, hp2, hp3⟩ := hp
  rw [hx1] at hp1
  rw [hx2] at hp2
  rw [hx3] at hp3
  simp only [Option.isSome_none, Bool.false_eq_true, false_or] at hp1
  rcases s1 with ⟨e1, q1, r1⟩ | ⟨e1, r1⟩ <;> rcases s2 with ⟨e2, q2, r2⟩ | ⟨e2, r2⟩ <;>
    subst r2 <;> subst r1 <;> simp [hp1, hp2, hp3, e1, e2]

theorem quantityStep_wt (m : GoMap) (k : String) (pre out : MetricTarget Q)
    (f : MetricTarget Q → Q → MetricTarget Q)
    (h : (match asString (GoMap.index m k) with
      | some v => if v ≠ "" then (L.MustParse v).map fun q => f pre q else some pre
      | none => some pre) = some out) :
    wtQuantity L m k = true := by
  unfold wtQuantity
  cases hs : asString (GoMap.index m k) with
  | none => rfl
  | some v =>
    simp only [hs] at h ⊢
    by_cases he : v = ""
    · simp [he]
    · simp only [ne_eq, he, not_false_eq_true, if_true, Option.map_eq_some'] at h
      obtain ⟨q, hq, _⟩ := h
      simp [hq]

theorem expandV2MetricTarget_isSome_iff (tm : GoMap) :
    (expandV2MetricTarget L tm).isSome = true ↔ wtTarget L tm = true := by
  refine ⟨fun h => ?_, expandV2MetricTarget_isSome L tm⟩
  obtain ⟨t, ht⟩ := Option.isSome_iff_exists.1 h
  unfold expandV2MetricTarget at ht
  simp only [Option.bind_eq_bind, Option.pure_def] at ht
  obtain ⟨t1, h1, ht⟩ := Option.bind_eq_some.1 ht
  obtain ⟨t2, h2, ht⟩ := Option.bind_eq_some.1 ht
  have w1 := quantityStep_wt L tm "average_value" _ t1
    (fun t q => { t with AverageValue := some q }) h1
  have w2 := quantityStep_wt L tm "value" t1 t2
    (fun t q => { t with Value := some q }) h2
  simp [wtTarget, w1, w2]

/-- C17, refuted as stated: on a record whose `min_replicas` is `2^32 + 1` expand
succeeds and `MinReplicas` points to `1`, not to that value; and on a target map
whose `average_value` is a non-empty string that is not a quantity,
`expandV2MetricTarget` panics and sets nothing. -/
theorem expand_min_replicas_wraps :
    (∃ spec : HorizontalPodAutoscalerSpec String (Slice Val),
        expandHorizontalPodAutoscalerV2Spec sampleLib wrappedMinReplicas
          = some (some spec, none) ∧ spec.MinReplicas = some 1) ∧
      (expandV2MetricTarget sampleLib unparsableTarget = none) :=
  ⟨⟨_, rfl, by decide⟩, rfl⟩

/-- C17, amended: on every record on which expand succeeds, `MinReplicas` is
present exactly when `min_replicas` is an `int` greater than `0`, and it then
points to that number converted to `int32` (the number itself when it is below
`2^31`); `expandV2MetricTarget` returns exactly when every non-empty quantity
string of the target map parses, and then `AverageUtilization` is set exactly when
`average_utilization` is an `int` greater than `0`, `AverageValue` exactly when
`average_value` is a non-empty string, and `Value` exactly when `value` is a
non-empty string. -/
theorem expand_absent_when_zero_or_empty :
    (∀ (inp : Slice Val) (spec : HorizontalPodAutoscalerSpec Q S),
      expandHorizontalPodAutoscalerV2Spec L inp = some (some spec, none) →
      ∃ m rest, inp = Slice.mk (Val.map m :: rest) ∧
        (spec.MinReplicas.isSome = true ↔
          ∃ v, GoMap.index m "min_replicas" = Val.int v ∧ 0 < v) ∧
        (∀ v, GoMap.index m "min_replicas" = Val.int v → 0 < v →
          spec.MinReplicas = some (toInt32 v) ∧
            (v < 2147483648 → spec.MinReplicas = some v))) ∧
      (∀ (tm : GoMap) (t : MetricTarget Q), expandV2MetricTarget L tm = some t →
        (t.AverageUtilization.isSome = true ↔
          ∃ v, GoMap.index tm "average_utilization" = Val.int v ∧ 0 < v) ∧
        (t.AverageValue.isSome = true ↔
          ∃ s, GoMap.index tm "average_value" = Val.str s ∧ s ≠ "") ∧
        (t.Value.isSome = true ↔ ∃ s, GoMap.index tm "value" = Val.str s ∧ s ≠ "")) ∧
      (∀ tm : GoMap, (expandV2MetricTarget L tm).isSome = true ↔ wtTarget L tm = true) := by
  refine ⟨?_, expandV2MetricTarget_fields L, expandV2MetricTarget_isSome_iff L⟩
  intro inp spec h
  obtain ⟨m, rest, hin⟩ := expandHPA_ok_shape L inp spec h
  subst hin
  obtain ⟨_, h3, _, _⟩ := expandHPA_ok L m rest spec h
  refine ⟨m, rest, rfl, ?_, ?_⟩
  · rw [h3]
    cases hi : asInt (GoMap.index m "min_replicas") with
    | none =>
      have : ¬ ∃ v, GoMap.index m "min_replicas" = Val.int v ∧ 0 < v := by
        rintro ⟨v, hv, _⟩
        rw [hv] at hi
        simp [asInt] at hi
      simp [this]
    | some v =>
      have hv := (asInt_eq_some _ _).1 hi
      by_cases hp : v > 0
      · have : ∃ w, GoMap.index m "min_replicas" = Val.int w ∧ 0 < w := ⟨v, hv, hp⟩
        simp [hp, this]
      · have : ¬ ∃ w, GoMap.index m "min_replicas" = Val.int w ∧ 0 < w := by
          rintro ⟨w, hw, hw2⟩
          rw [hv] at hw
          cases hw
          exact hp hw2
        simp [hp, this]
  · intro v hv hpos
    have hi : asInt (GoMap.index m "min_replicas") = some v := (asInt_eq_some _ _).2 hv
    have hmin : spec.MinReplicas = some (toInt32 v) := by
      rw [h3]
      simp [hi, hpos]
    refine ⟨hmin, fun hlt => ?_⟩
    rw [hmin, toInt32_of_inRange v (le_of_lt hpos) hlt]

/-- The theorem `expand_absent_when_zero_or_empty` at a target map with
`average_utilization = 80` and empty `average_value` and `value` strings: the
target is returned with `AverageUtilization` set and the two quantities nil. -/
theorem expand_absent_when_zero_or_empty_witness :
    ∃ t : MetricTarget String,
      expandV2MetricTarget sampleLib utilizationTargetRecord = some t ∧
      t.AverageUtilization.isSome = true ∧ t.AverageValue.isSome = false ∧
      t.Value.isSome = false ∧
      ((t.AverageValue.isSome = true ↔
        ∃ s, GoMap.index utilizationTargetRecord "average_value" = Val.str s ∧ s ≠ "")) :=
  ⟨_, rfl, rfl, rfl, rfl,
    ((expand_absent_when_zero_or_empty sampleLib).2.1 utilizationTargetRecord _ rfl).2.1⟩

/-- Whatever the library, when the `Value` of a target is set, the `value` entry
of every flattening is the string of `AverageValue`, not of `Value`. -/
theorem flattenV2MetricTarget_value_entry (target : MetricTarget Q) (q : Q)
    (hv : target.Value = some q) (out : Slice Val)
    (h : flattenV2MetricTarget L target = some out) :
    ∃ m s, out = Slice.mk [Val.map m] ∧ L.String target.AverageValue = some s ∧
      GoMap.get m "value" = some (Val.str s) := by
  unfold flattenV2MetricTarget at h
  simp only [hv, Option.bind_eq_bind, Option.pure_def] at h
  obtain ⟨m1, _, h⟩ := Option.bind_eq_some.1 h
  obtain ⟨m2, h2, h⟩ := Option.bind_eq_some.1 h
  simp only [Option.some.injEq] at h
  simp only [Option.map_eq_some'] at h2
  obtain ⟨s, hs, hm2⟩ := h2
  subst h
  subst hm2
  exact ⟨_, s, rfl, hs, by simp [GoMap.get_set]⟩

/-- C14, at the failing inputs: a target record of kind `value` expands to a
target whose `Value` is set and whose flattening panics; and a target record that
carries `average_value = "1"` and `value = "2"` flattens, after expand, to a map
whose `value` entry is `"1"`. -/
theorem target_roundTrip_value_entry_wrong :
    (∃ t : MetricTarget String,
        expandV2MetricTarget sampleLib valueTargetRecord = some t ∧ t.Value = some "10" ∧
        flattenV2MetricTarget sampleLib t = none) ∧
      (∃ (t : MetricTarget String) (m : GoMap),
        expandV2MetricTarget sampleLib bothValuesTargetRecord = some t ∧
        t.Value = some "2" ∧
        flattenV2MetricTarget sampleLib t = some (Slice.mk [Val.map m]) ∧
        GoMap.get m "value" = some (Val.str "1") ∧
        GoMap.get bothValuesTargetRecord "value" = some (Val.str "2")) :=
  ⟨⟨_, rfl, rfl, rfl⟩, ⟨_, _, rfl, rfl, rfl, rfl, rfl⟩⟩

end

section
variable {Q S : Type} (L : Lib Q S)

theorem expandMetricsFrom_untyped (spec : HorizontalPodAutoscalerSpec Q S)
    (pre post : List Val) (bad : GoMap) (hpre : ∀ x ∈ pre, wtMetric L x = true)
    (hbad : asString (GoMap.index bad "type") = none) :
    expandMetricsFrom L spec (pre ++ Val.map bad :: post)
      = some (none, some errMalformedMetric) := by
  induction pre generalizing spec with
  | nil =>
    have hp2 : expandV2MetricSpec L bad
        = some ({}, some (GoError.errorf "metric must have a type")) := by
      simp [expandV2MetricSpec, hbad]
    simp [expandMetricsFrom, asMap, hp2, errMalformedMetric]
  | cons v rest ih =>
    have hv : wtMetric L v = true := hpre v (List.mem_cons_self _ _)
    have hrest : ∀ w ∈ rest, wtMetric L w = true :=
      fun w hw => hpre w (List.mem_cons_of_mem _ hw)
    cases hm : asMap v with
    | none => simp [wtMetric, hm] at hv
    | some mm =>
      have hv2 : wtMetric L (Val.map mm) = true := by
        cases v <;> simp [asMap] at hm
        subst hm
        exact hv
      obtain ⟨p, hp⟩ := Option.isSome_iff_exists.1 (expandV2MetricSpec_isSome L mm hv2)
      obtain ⟨ms, err⟩ := p
      rw [List.cons_append]
      unfold expandMetricsFrom
      cases err with
      | some e0 =>
        obtain ⟨_, _, he0⟩ := expandV2MetricSpec_error L mm ms e0 hp
        subst he0
        simp [hm, hp, errMalformedMetric]
      | none =>
        have hih := ih { spec with Metrics := spec.Metrics.append ms } hrest
        simpa [hm, hp] using hih

theorem expandHPA_reaches_metrics (m : GoMap) (rest : List Val)
    (h : wtReplicasAndRef m = true) :
    ∃ s2 : HorizontalPodAutoscalerSpec Q S,
      expandHorizontalPodAutoscalerV2Spec L (Slice.mk (Val.map m :: rest)) =
        (match asSlice (GoMap.index m "metric") with
          | some v => expandMetricsFrom L { s2 with Metrics := Slice.mk [] } v.toList
          | none => some (some s2, none)) := by
  unfold wtReplicasAndRef at h
  simp only [Bool.and_eq_true] at h
  obtain ⟨h1, h2⟩ := h
  have e1 : ∃ s1 : HorizontalPodAutoscalerSpec Q S,
      (match GoMap.get m "max_replicas" with
        | some v => (asInt v).map fun n =>
            { ({} : HorizontalPodAutoscalerSpec Q S) with MaxReplicas := toInt32 n }
        | none => some {}) = some s1 := by
    cases hg : GoMap.get m "max_replicas" with
    | none => exact ⟨_, rfl⟩
    | some v =>
      simp only [hg] at h1
      obtain ⟨n, hn⟩ := Option.isSome_iff_exists.1 h1
      simp only [hn, Option.map_some']
      exact ⟨_, rfl⟩
  obtain ⟨s1, hs1⟩ := e1
  have e2 : ∀ s : HorizontalPodAutoscalerSpec Q S, ∃ s2 : HorizontalPodAutoscalerSpec Q S,
      (match GoMap.get m "scale_target_ref" with
        | some v => (asSlice v).bind fun sl =>
            (expandV2CrossVersionObjectReference sl).bind fun r =>
              some { s with ScaleTargetRef := r }
        | none => some s) = some s2 := by
    intro s
    cases hg : GoMap.get m "scale_target_ref" with
    | none => exact ⟨_, rfl⟩
    | some v =>
      simp only [hg] at h2
      cases hsl : asSlice v with
      | none => simp [hsl] at h2
      | some sl =>
        simp only [hsl] at h2
        obtain ⟨r, hr⟩ := Option.isSome_iff_exists.1
          (expandV2CrossVersionObjectReference_isSome sl h2)
        simp only [hsl, hr, Option.some_bind]
        exact ⟨_, rfl⟩
  obtain ⟨s2, hs2⟩ := e2
    (match asInt (GoMap.index m "min_replicas") with
      | some v => if v > 0 then { s1 with MinReplicas := ptrToInt32 (toInt32 v) } else s1
      | none => s1)
  refine ⟨s2, ?_⟩
  unfold expandHorizontalPodAutoscalerV2Spec
  simp only [Slice.toList, Val.isNil, asMap, Option.bind_eq_bind, Option.pure_def,
    Option.some_bind, Bool.false_eq_true, if_false, hs1]
  rw [hs2]
  simp only [Option.some_bind]

/-- C15, refuted as stated: a record with a metric without `type` whose
`max_replicas` is a string, and a record in which the metric without `type`
follows a pods metric with a nameless metric identifier, both make
`expandHorizontalPodAutoscalerV2Spec` panic: no error is returned. -/
theorem expand_untyped_metric_can_panic :
    (expandHorizontalPodAutoscalerV2Spec sampleLib untypedMetricWrongMax = none) ∧
      (expandHorizontalPodAutoscalerV2Spec sampleLib untypedMetricAfterNameless = none) :=
  ⟨rfl, rfl⟩

/-- C15, amended: when the first element of the input is a map whose
`max_replicas` and `scale_target_ref` are well typed, and its `metric` list holds a
map without a string `type` after any number of well-typed metrics,
`expandHorizontalPodAutoscalerV2Spec` returns the nil spec together with the error
"failed to expand metric spec: metric must have a type", which wraps "metric must
have a type"; what follows the malformed metric in the list does not matter. -/
theorem expand_untyped_metric_error (m : GoMap) (rest : List Val) (v : Slice Val)
    (pre post : List Val) (bad : GoMap)
    (hhead : wtReplicasAndRef m = true)
    (hv : asSlice (GoMap.index m "metric") = some v)
    (hl : v.toList = pre ++ Val.map bad :: post)
    (hpre : ∀ x ∈ pre, wtMetric L x = true)
    (hbad : asString (GoMap.index bad "type") = none) :
    expandHorizontalPodAutoscalerV2Spec L (Slice.mk (Val.map m :: rest))
        = some (none, some errMalformedMetric) ∧
      errMalformedMetric =
        GoError.wrap (GoError.errorf "metric must have a type")
          "failed to expand metric spec" ∧
      errMalformedMetric.Error = "failed to expand metric spec: metric must have a type" := by
  obtain ⟨s2, hs2⟩ := expandHPA_reaches_metrics L m rest hhead
  refine ⟨?_, rfl, by decide⟩
  rw [hs2]
  simp only [hv, hl]
  exact expandMetricsFrom_untyped L _ pre post bad hpre hbad

/-- The theorem `expand_untyped_metric_error` at a record whose metric list holds
a well-formed resource metric, then a metric without `type`, then an element that
is not a map. -/
theorem expand_untyped_metric_error_witness :
    expandHorizontalPodAutoscalerV2Spec sampleLib untypedBetweenTyped
      = some (none, some errMalformedMetric) :=
  (expand_untyped_metric_error sampleLib untypedBetweenTypedRecord []
    (Slice.mk
      [Val.map
        [("type", Val.str "Resource"),
         ("resource", Val.slice (Slice.mk [Val.map
            [("name", Val.str "cpu"),
             ("target", Val.slice (Slice.mk [Val.map
                [("type", Val.str "Utilization"),
                 ("average_utilization", Val.int 80)]]))]]))],
       Val.map [("resource", Val.slice Slice.nil)],
       Val.bool true])
    [Val.map
      [("type", Val.str "Resource"),
       ("resource", Val.slice (Slice.mk [Val.map
          [("name", Val.str "cpu"),
           ("target", Val.slice (Slice.mk [Val.map
              [("type", Val.str "Utilization"),
               ("average_utilization", Val.int 80)]]))]]))]]
    [Val.bool true]
    [("resource", Val.slice Slice.nil)]
    rfl rfl rfl
    (by
      intro x hx
      simp only [List.mem_singleton] at hx
      subst hx
      rfl)
    rfl).1

/-- The theorem `expand_preserves_metrics` at the sample record, whose `metric`
list has one element: `Metrics` has one element. -/
theorem expand_preserves_metrics_witness :
    ∃ (spec : HorizontalPodAutoscalerSpec String (Slice Val)) (ms : List (MetricSpec String (Slice Val))),
      expandHorizontalPodAutoscalerV2Spec sampleLib (Slice.mk [sampleObjectRecord])
        = some (some spec, none) ∧
      spec.Metrics = Slice.mk ms ∧ ms.length = 1 := by
  have hx : ∃ spec : HorizontalPodAutoscalerSpec String (Slice Val),
      expandHorizontalPodAutoscalerV2Spec sampleLib (Slice.mk [sampleObjectRecord])
        = some (some spec, none) := ⟨_, rfl⟩
  obtain ⟨spec, hs⟩ := hx
  obtain ⟨m, rest, hin, h1, _, _⟩ :=
    expand_preserves_metrics sampleLib (Slice.mk [sampleObjectRecord]) spec hs
  have hm : m = [("max_replicas", Val.int 5), ("min_replicas", Val.int 1),
     ("scale_target_ref", Val.slice (Slice.mk [Val.map
        [("api_version", Val.str "apps/v1"), ("kind", Val.str "Deployment"),
         ("name", Val.str "web")]])),
     ("metric", Val.slice (Slice.mk [Val.map sampleObjectMetric]))] := by
    simp only [sampleObjectRecord, Slice.mk.injEq, List.cons.injEq, Val.map.injEq] at hin
    exact hin.1.symm
  subst hm
  obtain ⟨ms, hms, hlen, _⟩ := h1 (Slice.mk [Val.map sampleObjectMetric]) rfl
  exact ⟨spec, ms, hs, hms, hlen⟩

end
end HPA
